import Mathlib

/-!
Kdenlive mask task: progress parsing and pipeline control flow.

A shallow embedding of `src/jobs/masktask.cpp` (`MaskTask::processLogInfo`,
`MaskTask::generateMask`, `MaskTask::run`).

Text is a list of characters.  The Qt string primitives the source calls
(`QString::contains`, `split`, `section`, `simplified`, `toInt`, `toDouble`
followed by `qRound`) are written out as executable list functions following
the Qt documentation.  C++ `int` is a Lean `Int` wrapped to 32 bits after every
arithmetic operation.
-/

namespace Kdenlive

/-- A `QString`, as the list of its characters. -/
abbrev QString := List Char

namespace Qt

/-- The predicate `QChar::isSpace`: the ASCII controls 9 to 13, the space, U+0085, U+00A0 and
the Unicode separator categories Zs, Zl and Zp. -/
def isSpace (c : Char) : Bool :=
  let n := c.toNat
  n == 0x20 || (0x09 ≤ n && n ≤ 0x0d) || n == 0x85 || n == 0xa0 || n == 0x1680 ||
    (0x2000 ≤ n && n ≤ 0x200a) || n == 0x2028 || n == 0x2029 || n == 0x202f ||
    n == 0x205f || n == 0x3000

/-- The test `QString::contains(sub)`: `sub` occurs somewhere in the text. -/
def contains (sub : QString) : QString → Bool
  | [] => sub.isPrefixOf []
  | c :: cs => sub.isPrefixOf (c :: cs) || contains sub cs

/-- The fields of `QString::split(sep, Qt::KeepEmptyParts)` for a non-empty separator: the text
is scanned left to right, a separator is recognised at the first position where it matches and
the scan resumes right after it.  The number argument counts the characters of a recognised
separator that are still to be skipped. -/
def splitFrom (sep : QString) : QString → Nat → List QString
  | [], _ => [[]]
  | _ :: cs, skip + 1 => splitFrom sep cs skip
  | c :: cs, 0 =>
    if sep.isPrefixOf (c :: cs) then [] :: splitFrom sep cs (sep.length - 1)
    else
      match splitFrom sep cs 0 with
      | [] => [[c]]
      | f :: fs => (c :: f) :: fs

/-- The call `QString::split(sep)`. -/
def split (sep : QString) (s : QString) : List QString := splitFrom sep s 0

/-- The call `QString::section(sep, start, end)` with the default flags: the fields numbered
`start` to `end` of the split text, joined by the separator again.  A negative index counts
from the right; an empty text is returned when the range selects nothing. -/
def sectionBy (sep : QString) (start stop : Int) (s : QString) : QString :=
  let fields := split sep s
  let n : Int := fields.length
  let a := if start < 0 then start + n else start
  let b := if stop < 0 then stop + n else stop
  if a ≥ n ∨ b < 0 ∨ a > b then []
  else
    let lo := a.toNat
    let hi := (min b (n - 1)).toNat
    sep.intercalate ((fields.drop lo).take (hi + 1 - lo))

/-- The loop of `QString::simplified`: whitespace is skipped, and a single space is written
before a word when a word has been written already (`emitted`) and whitespace was crossed
since (`gap`). -/
def simplifiedFrom : Bool → Bool → QString → QString
  | _, _, [] => []
  | emitted, gap, c :: cs =>
    if isSpace c then simplifiedFrom emitted true cs
    else if emitted && gap then ' ' :: c :: simplifiedFrom true false cs
    else c :: simplifiedFrom true false cs

/-- The call `QString::simplified()`: whitespace removed from both ends and every internal run
of whitespace replaced by one space. -/
def simplified (s : QString) : QString := simplifiedFrom false false s

/-- Whitespace removed from both ends, as the number conversions do before parsing. -/
def trimmed (s : QString) : QString :=
  ((s.dropWhile isSpace).reverse.dropWhile isSpace).reverse

/-- An ASCII decimal digit. -/
def isDigit (c : Char) : Bool := 48 ≤ c.toNat && c.toNat ≤ 57

/-- The number a list of decimal digits denotes, most significant digit first. -/
def decimalValue (ds : QString) : Nat :=
  ds.foldl (fun acc c => 10 * acc + (c.toNat - 48)) 0

/-- The smallest value of a C++ `int`. -/
def INT_MIN : Int := -2147483648

/-- The largest value of a C++ `int`. -/
def INT_MAX : Int := 2147483647

/-- A mathematical integer reduced to the 32-bit two's complement range. -/
def wrap32 (x : Int) : Int := (x + 2147483648) % 4294967296 - 2147483648

/-- An optional sign split off the front of a number. -/
def splitSign : QString → Bool × QString
  | '-' :: r => (true, r)
  | '+' :: r => (false, r)
  | r => (false, r)

/-- The call `QString::toInt()` in base 10: surrounding whitespace is ignored, an optional sign
is followed by decimal digits only, and the result is 0 when the conversion fails, which
includes a value outside the range of `int`. -/
def toInt (s : QString) : Int :=
  let p := splitSign (trimmed s)
  let ds := p.2
  if ds.isEmpty || !ds.all isDigit then 0
  else
    let v : Int := if p.1 then -(decimalValue ds : Int) else (decimalValue ds : Int)
    if INT_MIN ≤ v ∧ v ≤ INT_MAX then v else 0

/-- The exponent part of a floating-point literal: nothing, or `e` or `E`, an optional sign and
at least one digit.  `none` when the text is anything else. -/
def parseExponent : QString → Option Int
  | [] => some 0
  | c :: r =>
    if c == 'e' || c == 'E' then
      let p := splitSign r
      if p.2.isEmpty || !p.2.all isDigit then none
      else some (if p.1 then -(decimalValue p.2 : Int) else (decimalValue p.2 : Int))
    else none

/-- The magnitude `m * 10 ^ e` rounded to the nearest integer, halves away from zero. -/
def roundScaled (m : Nat) (e : Int) : Nat :=
  if 0 ≤ e then m * 10 ^ e.toNat
  else (2 * m + 10 ^ (-e).toNat) / (2 * 10 ^ (-e).toNat)

/-- The expression `qRound(s.toDouble())` as an `int`.  `toDouble` reads an optional sign, digits
with an optional fraction, and an optional exponent, and yields 0.0 when the conversion fails;
`qRound` rounds halves away from zero.  The decimal value is rounded exactly: the rounding of
the literal to a binary64 number and the non-finite literals are not represented. -/
def qRoundToDouble (s : QString) : Int :=
  let p := splitSign (trimmed s)
  let ip := p.2.takeWhile isDigit
  let r1 := p.2.dropWhile isDigit
  let fp := match r1 with
    | '.' :: r2 => r2.takeWhile isDigit
    | _ => []
  let r3 := match r1 with
    | '.' :: r2 => r2.dropWhile isDigit
    | _ => r1
  if ip.isEmpty && fp.isEmpty then 0
  else
    match parseExponent r3 with
    | none => 0
    | some e =>
      let mag := roundScaled (decimalValue (ip ++ fp)) (e - fp.length)
      wrap32 (if p.1 then -(mag : Int) else (mag : Int))

end Qt


/-- The keys of the `QMap<int, QString>` of mask properties that the task reads. -/
inductive MaskProperty
  | INPUTFOLDER
  | OUTPUTFOLDER
  | OUTPUTFILE
  | NAME
  | POINTS
  | LABELS
  | BOX
deriving DecidableEq, Repr

/-- The call `QMap::value(key)`: the text stored under the key, or an empty text. -/
def value (m : List (MaskProperty × QString)) (key : MaskProperty) : QString :=
  match m.find? (fun p => p.1 == key) with
  | some p => p.2
  | none => []

/-- The result record `MaskInfo` handed to the owning clip. -/
structure MaskInfo where
  maskName : QString
  maskFile : QString
  inPoint : Int
  outPoint : Int
deriving DecidableEq, Repr

/-- What the task does to the world outside it, in the order it happens. -/
inductive Event
  | startProcess (program : QString) (args : List QString)
  | killProcess
  | updateJobProgress
  | displayBinMessage (text : QString)
  | saveThumbnail (file : QString)
  | addMask (mask : MaskInfo)
  | taskDone (itemId : Int)
deriving DecidableEq, Repr

/-- A run-time error that ends the program. -/
inductive Fault
  | divisionByZero
deriving DecidableEq, Repr

/-- The fields of `MaskTask` and of its base `AbstractTask` that the three functions use. -/
structure MaskTask where
  m_ownerItemId : Int
  m_properties : List (MaskProperty × QString)
  m_scriptPath : QString × QString
  m_in : Int
  m_out : Int
  m_isCanceled : Bool
  m_running : Bool
  m_progress : Int
  m_errorMessage : QString
  m_logDetails : QString
  m_isFfmpegJob : Bool
  m_jobDuration : Int
deriving DecidableEq, Repr

/-- Modelled from the spec: the header `masktask.h` and the base class `AbstractTask` are not
part of the sources; a new task is neither cancelled nor running, has progress 0, no error
message, the percent-marker mode selected and the job duration unset.  The constructor
`MaskTask::MaskTask` itself stores the owner, the properties, the script path and the two
range bounds. -/
def MaskTask.create (ownerItemId : Int) (maskProperties : List (MaskProperty × QString))
    (scriptPath : QString × QString) (inPoint outPoint : Int) : MaskTask :=
  { m_ownerItemId := ownerItemId
    m_properties := maskProperties
    m_scriptPath := scriptPath
    m_in := inPoint
    m_out := outPoint
    m_isCanceled := false
    m_running := false
    m_progress := 0
    m_errorMessage := []
    m_logDetails := []
    m_isFfmpegJob := false
    m_jobDuration := 0 }

/-- The marker `Duration:` of the transcoder output. -/
def durationMarker : QString := ['D', 'u', 'r', 'a', 't', 'i', 'o', 'n', ':']

/-- The marker `time=` of the transcoder output. -/
def timeMarker : QString := ['t', 'i', 'm', 'e', '=']

/-- The marker `%|` of the segmentation script output. -/
def percentMarker : QString := ['%', '|']

/-- The C++ `int` division `a / b`: truncation towards zero, an error for a zero divisor. -/
def intDiv (a b : Int) : Except Fault Int :=
  if b = 0 then .error Fault.divisionByZero else .ok (Qt.wrap32 (Int.tdiv a b))

/-- The `int` expression `h.toInt() * 3600 + m.toInt() * 60 + s`. -/
def hmsSeconds (h m : QString) (s : Int) : Int :=
  Qt.wrap32 (Qt.wrap32 (Qt.wrap32 (Qt.toInt h * 3600) + Qt.wrap32 (Qt.toInt m * 60)) + s)

/-- The block `if (m_progress != val) { m_progress = val; invokeMethod(m_object,
"updateJobProgress"); }`. -/
def publishProgress (val : Int) (t : MaskTask) : MaskTask × List Event :=
  if t.m_progress ≠ val then ({ t with m_progress := val }, [Event.updateJobProgress])
  else (t, [])

/-- The end of the duration branch: `int val = 100 * progress / m_jobDuration;` followed by the
publication of `val`. -/
def reportElapsed (progress : Int) (t : MaskTask) : Except Fault (MaskTask × List Event) :=
  match intDiv (Qt.wrap32 (100 * progress)) t.m_jobDuration with
  | .error f => .error f
  | .ok val => .ok (publishProgress val t)

/-- The slot `MaskTask::processLogInfo`, given the text read from the process. -/
def MaskTask.processLogInfo (buffer : QString) (t0 : MaskTask) :
    Except Fault (MaskTask × List Event) :=
  let t := { t0 with m_logDetails := t0.m_logDetails ++ buffer }
  if t.m_isFfmpegJob then
    if t.m_jobDuration = 0 then
      if Qt.contains durationMarker buffer then
        let data := Qt.simplified (Qt.sectionBy [','] 0 0 (Qt.sectionBy durationMarker 1 1 buffer))
        if !data.isEmpty then
          let numbers := Qt.split [':'] data
          if numbers.length < 3 then .ok (t, [])
          else
            let total := hmsSeconds (numbers.getD 0 []) (numbers.getD 1 [])
              (Qt.toInt (numbers.getD 2 []))
            .ok ({ t with m_jobDuration := total }, [])
        else .ok (t, [])
      else .ok (t, [])
    else if Qt.contains timeMarker buffer then
      let time := Qt.sectionBy [' '] 0 0 (Qt.simplified (Qt.sectionBy timeMarker 1 1 buffer))
      if !time.isEmpty then
        let numbers := Qt.split [':'] time
        if numbers.length < 3 then
          let progress := Qt.toInt time
          if progress = 0 then .ok (t, [])
          else reportElapsed progress t
        else
          reportElapsed (hmsSeconds (numbers.getD 0 []) (numbers.getD 1 [])
            (Qt.qRoundToDouble (numbers.getD 2 []))) t
      else reportElapsed 0 t
    else .ok (t, [])
  else
    if Qt.contains percentMarker buffer then
      let val := Qt.toInt (Qt.sectionBy [' '] (-1) (-1)
        (Qt.simplified (Qt.sectionBy percentMarker 0 0 buffer)))
      .ok (publishProgress val t)
    else .ok (t, [])


/-- One thing that happens while the worker waits in `QProcess::waitForFinished`: the process
writes text to its error channel, or the task is cancelled from another thread. -/
inductive StageStep
  | output (buffer : QString)
  | cancel
deriving DecidableEq, Repr

/-- The surroundings of one execution of `run`: the task manager, the settings, the file system
and the behaviour of the two external processes. -/
structure World where
  isBlocked : Bool
  dirExists : QString → Bool
  dirIsEmpty : QString → Bool
  samModelFile : QString
  configForModel : QString
  samDevice : QString
  ffmpegpath : QString
  currentFps : QString
  stage1 : List StageStep
  stage2 : List StageStep
  fileExists : QString → Bool
  frameExists : QString → QString → Bool
  cancelBeforePublish : Bool

/-- Modelled from the spec: `AbstractTask::cancelJob` is not part of the sources.  Setting the
cancellation flag is idempotent, and the first setting emits `jobCanceled`, which the task has
connected to `QProcess::kill` of its process. -/
def MaskTask.cancelJob (t : MaskTask) : MaskTask × List Event :=
  if t.m_isCanceled then (t, []) else ({ t with m_isCanceled := true }, [Event.killProcess])

/-- The call `m_scriptJob->waitForFinished(-1)`: every buffer the process writes is passed to
`processLogInfo`, and a cancellation request is served, until the process has exited. -/
def MaskTask.waitForFinished : List StageStep → MaskTask → Except Fault (MaskTask × List Event)
  | [], t => .ok (t, [])
  | StageStep.output buffer :: rest, t =>
    match MaskTask.processLogInfo buffer t with
    | .error f => .error f
    | .ok r =>
      match MaskTask.waitForFinished rest r.1 with
      | .error f => .error f
      | .ok r2 => .ok (r2.1, r.2 ++ r2.2)
  | StageStep.cancel :: rest, t =>
    match MaskTask.waitForFinished rest t.cancelJob.1 with
    | .error f => .error f
    | .ok r2 => .ok (r2.1, t.cancelJob.2 ++ r2.2)

/-- The translation `i18n("No source frames to process")`, left untranslated. -/
def noSourceFramesMessage : QString := "No source frames to process".toList

/-- The translation `i18n("Failed to render mask %1", outFile)`, left untranslated. -/
def failedToRenderMessage (outFile : QString) : QString :=
  "Failed to render mask ".toList ++ outFile

/-- The argument list of the segmentation script. -/
def scriptArgs (w : World) (t : MaskTask) : List QString :=
  let args := [t.m_scriptPath.2, "-I".toList, value t.m_properties MaskProperty.INPUTFOLDER,
    "-O".toList, value t.m_properties MaskProperty.OUTPUTFOLDER, "-M".toList, w.samModelFile,
    "-C".toList, w.configForModel]
  let args := if !(value t.m_properties MaskProperty.POINTS).isEmpty then
      args ++ ["-P".toList, value t.m_properties MaskProperty.POINTS, "-L".toList,
        value t.m_properties MaskProperty.LABELS]
    else args
  let args := if !(value t.m_properties MaskProperty.BOX).isEmpty then
      args ++ ["-B".toList, value t.m_properties MaskProperty.BOX]
    else args
  if !w.samDevice.isEmpty then args ++ ["-D".toList, w.samDevice] else args

/-- The argument list of the transcoding process. -/
def ffmpegArgs (w : World) (t : MaskTask) : List QString :=
  ["-y".toList, "-framerate".toList, w.currentFps, "-pattern_type".toList, "glob".toList,
    "-i".toList, value t.m_properties MaskProperty.OUTPUTFOLDER ++ "/*.png".toList,
    "-c:v".toList, "ffv1".toList, "-pix_fmt".toList, "yuva420p".toList,
    value t.m_properties MaskProperty.OUTPUTFILE]

/-- The block that saves the thumbnail: when the first frame `00000.png` exists in the folder of
output frames, it is scaled and saved next to the output file under the extension `.png`. -/
def MaskTask.thumbnail (w : World) (t : MaskTask) : List Event :=
  if w.frameExists (value t.m_properties MaskProperty.OUTPUTFOLDER) "00000.png".toList then
    [Event.saveThumbnail
      (Qt.sectionBy ['.'] 0 (-2) (value t.m_properties MaskProperty.OUTPUTFILE) ++ ".png".toList)]
  else []

/-- The last part of `generateMask`, after the output file was found: the thumbnail, the
progress set to 100 and the publication of the result unless the task is cancelled. -/
def MaskTask.publishResult (w : World) (t : MaskTask) : MaskTask × List Event :=
  let outFile := value t.m_properties MaskProperty.OUTPUTFILE
  let t1 := { t with m_progress := 100 }
  let c := if w.cancelBeforePublish then t1.cancelJob else (t1, [])
  if !c.1.m_isCanceled then
    (c.1, MaskTask.thumbnail w t ++ c.2 ++ [Event.addMask
      { maskName := value t.m_properties MaskProperty.NAME
        maskFile := outFile
        inPoint := t.m_in
        outPoint := t.m_out }])
  else (c.1, MaskTask.thumbnail w t ++ c.2)

/-- The function `MaskTask::generateMask`. -/
def MaskTask.generateMask (w : World) (t : MaskTask) : Except Fault (MaskTask × List Event) :=
  let srcFolder := value t.m_properties MaskProperty.INPUTFOLDER
  if !w.dirExists srcFolder || w.dirIsEmpty srcFolder then
    .ok ({ t with m_errorMessage := noSourceFramesMessage }, [])
  else
    let outFile := value t.m_properties MaskProperty.OUTPUTFILE
    let start1 := [Event.startProcess t.m_scriptPath.1 (scriptArgs w t)]
    match MaskTask.waitForFinished w.stage1 t with
    | .error f => .error f
    | .ok r1 =>
      let t2 := { r1.1 with m_isFfmpegJob := true }
      let start2 := [Event.startProcess w.ffmpegpath (ffmpegArgs w t)]
      match MaskTask.waitForFinished w.stage2 t2 with
      | .error f => .error f
      | .ok r2 =>
        let t3 := r2.1
        if !w.fileExists outFile then
          .ok (t3, start1 ++ r1.2 ++ start2 ++ r2.2 ++
            [Event.displayBinMessage
              (if t3.m_errorMessage.isEmpty then failedToRenderMessage outFile
               else t3.m_errorMessage)])
        else
          let p := MaskTask.publishResult w t3
          .ok (p.1, start1 ++ r1.2 ++ start2 ++ r2.2 ++ p.2)

/-- Modelled from the spec: the class `AbstractTaskDone` is not part of the sources.  Its
destructor is the finalization hook: it tells the task manager that the task of the owner
`itemId` is done, so that the slot of this owner is free again. -/
def AbstractTaskDone.finish (itemId : Int) : List Event := [Event.taskDone itemId]

/-- The function `MaskTask::run`.  The object `AbstractTaskDone whenFinished(m_owner.itemId,
this)` is the first local of the function, so its destructor runs last on every return. -/
def MaskTask.run (w : World) (t : MaskTask) : Except Fault (MaskTask × List Event) :=
  let whenFinished := AbstractTaskDone.finish t.m_ownerItemId
  if t.m_isCanceled || w.isBlocked then .ok (t, whenFinished)
  else
    match MaskTask.generateMask w { t with m_running := true } with
    | .error f => .error f
    | .ok r => .ok (r.1, r.2 ++ whenFinished)

/-! Sample data and specification-side definitions. -/

/-- What an unset job duration becomes when a buffer is processed in duration mode. -/
def parsedDuration (buffer : QString) : Int :=
  if Qt.contains durationMarker buffer then
    let data := Qt.simplified (Qt.sectionBy [','] 0 0 (Qt.sectionBy durationMarker 1 1 buffer))
    if !data.isEmpty then
      let numbers := Qt.split [':'] data
      if numbers.length < 3 then 0
      else hmsSeconds (numbers.getD 0 []) (numbers.getD 1 []) (Qt.toInt (numbers.getD 2 []))
    else 0
  else 0

/-- A task in duration mode with a job duration of 60 seconds and a progress of 7. -/
def sampleDurationTask : MaskTask :=
  { MaskTask.create 7 [] ([], []) 0 10 with
    m_isFfmpegJob := true, m_jobDuration := 60, m_progress := 7 }

/-- A decimal integer as text: the digits, after a minus sign when it is negative. -/
def signedToken (neg : Bool) (ds : QString) : QString := if neg then '-' :: ds else ds

/-- The integer that `signedToken neg ds` denotes. -/
def signedValue (neg : Bool) (ds : QString) : Int :=
  if neg then -(Qt.decimalValue ds : Int) else (Qt.decimalValue ds : Int)

/-- A task in percent-marker mode with a progress of 7. -/
def samplePercentTask : MaskTask :=
  { MaskTask.create 7 [] ([], []) 0 10 with m_progress := 7 }

/-- The percentage `val` that a call of `processLogInfo` computes, or `none` when the call
returns without computing one. -/
def computedPercentage (buffer : QString) (t : MaskTask) : Option Int :=
  if t.m_isFfmpegJob then
    if t.m_jobDuration = 0 then none
    else if Qt.contains timeMarker buffer then
      let time := Qt.sectionBy [' '] 0 0 (Qt.simplified (Qt.sectionBy timeMarker 1 1 buffer))
      if !time.isEmpty then
        let numbers := Qt.split [':'] time
        if numbers.length < 3 then
          if Qt.toInt time = 0 then none
          else some (Qt.wrap32 (Int.tdiv (Qt.wrap32 (100 * Qt.toInt time)) t.m_jobDuration))
        else
          some (Qt.wrap32 (Int.tdiv (Qt.wrap32 (100 *
            hmsSeconds (numbers.getD 0 []) (numbers.getD 1 [])
              (Qt.qRoundToDouble (numbers.getD 2 [])))) t.m_jobDuration))
      else some (Qt.wrap32 (Int.tdiv (Qt.wrap32 (100 * 0)) t.m_jobDuration))
    else none
  else if Qt.contains percentMarker buffer then
    some (Qt.toInt (Qt.sectionBy [' '] (-1) (-1)
      (Qt.simplified (Qt.sectionBy percentMarker 0 0 buffer))))
  else none

/-- The task after the bookkeeping of a call of `processLogInfo` that precedes any progress
update: the buffer is appended to the log and an unset job duration is parsed in duration
mode. -/
def afterLog (buffer : QString) (t : MaskTask) : MaskTask :=
  { t with
    m_logDetails := t.m_logDetails ++ buffer
    m_jobDuration :=
      if t.m_isFfmpegJob = true ∧ t.m_jobDuration = 0 then parsedDuration buffer
      else t.m_jobDuration }

/-- A task in duration mode whose job duration is still unset. -/
def sampleUnsetTask : MaskTask :=
  { MaskTask.create 7 [] ([], []) 0 10 with m_isFfmpegJob := true }

/-- A task in percent-marker mode with a progress of 45. -/
def sampleHalfwayTask : MaskTask :=
  { MaskTask.create 7 [] ([], []) 0 10 with m_progress := 45 }

/-- A task in duration mode with a job duration of 60 seconds and a progress of 50. -/
def sampleEncodingTask : MaskTask :=
  { MaskTask.create 7 [] ([], []) 0 10 with
    m_isFfmpegJob := true, m_jobDuration := 60, m_progress := 50 }

/-- The fields of a task that no stage changes: `u` has the setup of `t`. -/
def sameSetup (t u : MaskTask) : Prop :=
  u.m_ownerItemId = t.m_ownerItemId ∧ u.m_properties = t.m_properties ∧
  u.m_scriptPath = t.m_scriptPath ∧ u.m_in = t.m_in ∧ u.m_out = t.m_out ∧
  u.m_running = t.m_running ∧ u.m_errorMessage = t.m_errorMessage

/-- The events a running stage can cause: a progress notification or the kill of the process. -/
def Event.isStageEvent : Event → Bool
  | Event.updateJobProgress => true
  | Event.killProcess => true
  | _ => false

/-- The event is the publication of a result record. -/
def Event.isAddMask : Event → Bool
  | Event.addMask _ => true
  | _ => false

/-- The event is the finalization hook. -/
def Event.isTaskDone : Event → Bool
  | Event.taskDone _ => true
  | _ => false

/-- The event is the start of an external process. -/
def Event.isStartProcess : Event → Bool
  | Event.startProcess _ _ => true
  | _ => false

/-- A cancellation request arrives during the stage. -/
def hasCancel (steps : List StageStep) : Bool := steps.contains StageStep.cancel

/-- The result record the task is configured to publish. -/
def MaskTask.configuredMask (t : MaskTask) : MaskInfo :=
  { maskName := value t.m_properties MaskProperty.NAME
    maskFile := value t.m_properties MaskProperty.OUTPUTFILE
    inPoint := t.m_in
    outPoint := t.m_out }

/-- The input folder of the task exists and holds something. -/
def sourceFramesPresent (w : World) (t : MaskTask) : Bool :=
  w.dirExists (value t.m_properties MaskProperty.INPUTFOLDER) &&
    !w.dirIsEmpty (value t.m_properties MaskProperty.INPUTFOLDER)

/-- The properties of the sample task. -/
def sampleProperties : List (MaskProperty × QString) :=
  [(MaskProperty.INPUTFOLDER, "/tmp/in".toList), (MaskProperty.OUTPUTFOLDER, "/tmp/out".toList),
    (MaskProperty.OUTPUTFILE, "/tmp/mask.mkv".toList), (MaskProperty.NAME, "mask1".toList),
    (MaskProperty.POINTS, "10,20".toList), (MaskProperty.LABELS, "1".toList)]

/-- A freshly constructed task for the owner 7 and the range 5 to 125. -/
def sampleTask : MaskTask :=
  MaskTask.create 7 sampleProperties ("python".toList, "sam.py".toList) 5 125

/-- A world in which both processes run to the end and the output file is written. -/
def sampleWorld : World :=
  { isBlocked := false
    dirExists := fun _ => true
    dirIsEmpty := fun _ => false
    samModelFile := "model.pt".toList
    configForModel := "config.yaml".toList
    samDevice := []
    ffmpegpath := "ffmpeg".toList
    currentFps := "25".toList
    stage1 := [StageStep.output " 45%| 9/20".toList, StageStep.output "100%| 20/20".toList]
    stage2 := [StageStep.output "Duration: 00:01:00".toList,
      StageStep.output "time=00:00:30".toList]
    fileExists := fun _ => true
    frameExists := fun _ _ => true
    cancelBeforePublish := false }

/-- The sample world, except that the task is cancelled while the first stage runs. -/
def cancelledWorld : World :=
  { sampleWorld with
    stage1 := [StageStep.output " 45%| 9/20".toList, StageStep.cancel] }

/-- The sample world, except that the transcoder leaves no output file. -/
def noOutputWorld : World :=
  { sampleWorld with fileExists := fun _ => false }

/-- A buffer as one of the two tools writes it, described by what it reports: a text without
further structure, a line of the segmentation script whose text before the marker `%|` ends
with a decimal integer, or a line of the transcoder whose marker `time=` is followed by
`HH:MM:SS`. -/
inductive Report
  | plain (buffer : QString)
  | percent (lead : QString) (neg : Bool) (digits rest : QString)
  | elapsed (pre hh mm ss rest : QString)

/-- The text of the buffer. -/
def Report.text : Report → QString
  | Report.plain buffer => buffer
  | Report.percent lead neg digits rest =>
    (lead ++ signedToken neg digits) ++ percentMarker ++ rest
  | Report.elapsed pre hh mm ss rest =>
    pre ++ timeMarker ++ ((hh ++ ':' :: (mm ++ ':' :: ss)) ++ rest)

open Qt

theorem splitFrom_ne_nil (sep : QString) (s : QString) (k : Nat) : splitFrom sep s k ≠ [] := by
  induction s generalizing k with
  | nil => simp [splitFrom]
  | cons c cs ih =>
    cases k with
    | succ k => simpa [splitFrom] using ih k
    | zero =>
      unfold splitFrom
      split
      · simp
      · split <;> simp

theorem splitFrom_skip (sep : QString) (xs rest : QString) :
    splitFrom sep (xs ++ rest) xs.length = splitFrom sep rest 0 := by
  induction xs with
  | nil => rfl
  | cons c cs ih => simpa [splitFrom] using ih

theorem splitFrom_cons_of_not_isPrefixOf (sep : QString) (c : Char) (cs : QString)
    (h : sep.isPrefixOf (c :: cs) = false) :
    ∃ f fs, splitFrom sep cs 0 = f :: fs ∧ splitFrom sep (c :: cs) 0 = (c :: f) :: fs := by
  cases hs : splitFrom sep cs 0 with
  | nil => exact absurd hs (splitFrom_ne_nil sep cs 0)
  | cons f fs =>
    refine ⟨f, fs, rfl, ?_⟩
    rw [splitFrom, if_neg (by simp [h]), hs]

theorem split_at_first (sep pre rest : QString) (hsep : sep ≠ [])
    (hfirst : ∀ k, k < pre.length → sep.isPrefixOf ((pre ++ sep ++ rest).drop k) = false) :
    split sep (pre ++ sep ++ rest) = pre :: split sep rest := by
  unfold split
  induction pre with
  | nil =>
    obtain ⟨d, ds, rfl⟩ := List.exists_cons_of_ne_nil hsep
    have hp : (d :: ds).isPrefixOf (d :: ds ++ rest) = true := by
      rw [List.isPrefixOf_iff_prefix]; exact List.prefix_append _ _
    have := splitFrom_skip (d :: ds) ds rest
    simp only [List.nil_append, List.cons_append] at hp ⊢
    rw [splitFrom, if_pos hp]
    simpa using this
  | cons c cs ih =>
    have h0 := hfirst 0 (by simp)
    have ih2 := ih (fun k hk => by simpa using hfirst (k + 1) (by simpa using hk))
    obtain ⟨f, fs, h1, h2⟩ := splitFrom_cons_of_not_isPrefixOf sep c (cs ++ sep ++ rest)
      (by simpa using h0)
    simp only [List.cons_append, List.append_assoc] at h2 ih2 h1 ⊢
    rw [h2]
    rw [ih2] at h1
    injection h1 with h3 h4
    rw [h3, h4]

theorem intercalate_single (sep f : QString) : List.intercalate sep [f] = f := by
  simp [List.intercalate, List.intersperse]

theorem sectionBy_zero_zero (sep s : QString) :
    sectionBy sep 0 0 s = (split sep s).headD [] := by
  unfold sectionBy
  cases hs : split sep s with
  | nil => exact absurd hs (splitFrom_ne_nil sep s 0)
  | cons f fs =>
    have h1 : ¬((0 : Int) ≥ ((f :: fs).length : Int) ∨ (0 : Int) < 0 ∨ (0 : Int) > 0) := by
      simp only [List.length_cons]; omega
    simp only [lt_self_iff_false, if_false, h1]
    have h2 : (min (0 : Int) (((f :: fs).length : Int) - 1)).toNat = 0 := by
      simp only [List.length_cons]; omega
    simp only [h2, List.drop_zero, List.headD_cons]
    simp [intercalate_single]

theorem sectionBy_one_one (sep s : QString) :
    sectionBy sep 1 1 s = (split sep s).getD 1 [] := by
  unfold sectionBy
  cases hs : split sep s with
  | nil => exact absurd hs (splitFrom_ne_nil sep s 0)
  | cons f fs =>
    cases fs with
    | nil => simp
    | cons g gs =>
      have h1 : ¬((1 : Int) ≥ ((f :: g :: gs).length : Int) ∨ (1 : Int) < 0 ∨ (1 : Int) > 1) := by
        simp only [List.length_cons]; omega
      have h0 : ¬ ((1 : Int) < 0) := by omega
      simp only [h0, if_false, h1]
      have h2 : (min (1 : Int) (((f :: g :: gs).length : Int) - 1)).toNat = 1 := by
        simp only [List.length_cons]; omega
      simp only [h2]
      simp [intercalate_single]

theorem sectionBy_last (sep s : QString) :
    sectionBy sep (-1) (-1) s = (split sep s).getLastD [] := by
  unfold sectionBy
  cases hs : split sep s with
  | nil => exact absurd hs (splitFrom_ne_nil sep s 0)
  | cons f fs =>
    have hn : ((f :: fs).length : Int) = (fs.length : Int) + 1 := by simp
    have h0 : ((-1 : Int) < 0) := by omega
    have h1 : ¬((-1 : Int) + ((f :: fs).length : Int) ≥ ((f :: fs).length : Int) ∨
        (-1 : Int) + ((f :: fs).length : Int) < 0 ∨
        (-1 : Int) + ((f :: fs).length : Int) > (-1 : Int) + ((f :: fs).length : Int)) := by
      rw [hn]; omega
    simp only [h0, if_true, h1, if_false]
    have h2 : ((-1 : Int) + ((f :: fs).length : Int)).toNat = fs.length := by rw [hn]; omega
    have h3 : (min ((-1 : Int) + ((f :: fs).length : Int))
        (((f :: fs).length : Int) - 1)).toNat = fs.length := by rw [hn]; omega
    rw [h2, h3]
    have h4 : fs.length + 1 - fs.length = 1 := by omega
    rw [h4]
    have h5 : (List.drop fs.length (f :: fs)).take 1 = [(f :: fs).getLastD []] := by
      clear hs hn h1 h2 h3 h4
      induction fs generalizing f with
      | nil => simp
      | cons g gs ih => simpa using ih g
    rw [h5, intercalate_single]

theorem split_headD_cons (d : Char) (ds : QString) (c : Char) (cs : QString) (h : d ≠ c) :
    (split (d :: ds) (c :: cs)).headD [] = c :: (split (d :: ds) cs).headD [] := by
  obtain ⟨f, fs, h1, h2⟩ := splitFrom_cons_of_not_isPrefixOf (d :: ds) c cs
    (by simp [List.isPrefixOf, h])
  simp [split, h1, h2]

theorem split_headD_append (d : Char) (ds : QString) (tok rest : QString) (h : d ∉ tok) :
    (split (d :: ds) (tok ++ rest)).headD [] = tok ++ (split (d :: ds) rest).headD [] := by
  induction tok with
  | nil => simp
  | cons c cs ih =>
    have hc : d ≠ c := fun e => h (by simp [e])
    have hcs : d ∉ cs := fun e => h (by simp [e])
    rw [List.cons_append, split_headD_cons d ds c _ hc, ih hcs, List.cons_append]

theorem split_single_of_not_mem (d : Char) (tok : QString) (h : d ∉ tok) :
    split [d] tok = [tok] := by
  induction tok with
  | nil => rfl
  | cons c cs ih =>
    have hc : d ≠ c := fun e => h (by simp [e])
    have hcs : d ∉ cs := fun e => h (by simp [e])
    obtain ⟨f, fs, h1, h2⟩ := splitFrom_cons_of_not_isPrefixOf [d] c cs
      (by simp [List.isPrefixOf, hc])
    have := ih hcs
    unfold split at this ⊢
    rw [h2]
    rw [this] at h1
    injection h1 with h3 h4
    rw [h3, h4]

theorem split_single_append (d : Char) (tok rest : QString) (h : d ∉ tok) :
    split [d] (tok ++ d :: rest) = tok :: split [d] rest := by
  have := split_at_first [d] tok rest (by simp) (fun k hk => by
    have hk2 : k < (tok ++ [d] ++ rest).length := by simp; omega
    rw [List.drop_eq_getElem_cons hk2]
    have hne : d ≠ (tok ++ [d] ++ rest)[k] := by
      intro e
      apply h
      rw [e]
      have : (tok ++ [d] ++ rest)[k] = tok[k] := by
        simp [List.getElem_append_left, hk]
      rw [this]
      exact List.getElem_mem _
    simp only [List.append_assoc, List.singleton_append] at hne
    simp [List.isPrefixOf, hne])
  simpa using this

theorem simplifiedFrom_cons_of_not_isSpace (e g : Bool) (c : Char) (cs : QString)
    (h : isSpace c = false) :
    simplifiedFrom e g (c :: cs) =
      (if e && g then [' '] else []) ++ c :: simplifiedFrom true false cs := by
  rw [simplifiedFrom]
  cases e <;> cases g <;> simp [h]

theorem simplifiedFrom_word (tok rest : QString) (h : ∀ c ∈ tok, isSpace c = false) :
    simplifiedFrom true false (tok ++ rest) = tok ++ simplifiedFrom true false rest := by
  induction tok with
  | nil => rfl
  | cons c cs ih =>
    rw [List.cons_append, simplifiedFrom_cons_of_not_isSpace _ _ _ _ (h c (by simp)),
      ih (fun x hx => h x (by simp [hx]))]
    simp

theorem simplifiedFrom_gap_shape (r : QString) :
    simplifiedFrom true true r = [] ∨ ∃ y, simplifiedFrom true true r = ' ' :: y := by
  induction r with
  | nil => exact Or.inl rfl
  | cons c cs ih =>
    cases hc : isSpace c with
    | true => rw [simplifiedFrom, if_pos hc]; exact ih
    | false =>
      rw [simplifiedFrom_cons_of_not_isSpace _ _ _ _ hc]
      exact Or.inr ⟨_, rfl⟩

theorem isSpace_of_isDigit (c : Char) (h : isDigit c = true) : isSpace c = false := by
  unfold isDigit at h
  unfold isSpace
  simp only [Bool.and_eq_true, decide_eq_true_eq] at h
  simp only [Bool.or_eq_false_iff, Bool.and_eq_false_iff, beq_eq_false_iff_ne, ne_eq,
    decide_eq_false_iff_not]
  omega

theorem dropWhile_of_head (p : Char → Bool) (s : QString)
    (h : ∀ c ∈ s.head?, p c = false) : s.dropWhile p = s := by
  cases s with
  | nil => rfl
  | cons c cs => simp [List.dropWhile, h c (by simp)]

theorem trimmed_of_no_space (s : QString) (h : ∀ c ∈ s, isSpace c = false) : trimmed s = s := by
  unfold trimmed
  rw [dropWhile_of_head isSpace s (fun c hc => h c (List.mem_of_mem_head? hc))]
  rw [dropWhile_of_head isSpace s.reverse (fun c hc =>
    h c (List.mem_reverse.mp (List.mem_of_mem_head? hc)))]
  simp

theorem splitSign_of_isDigit (c : Char) (cs : QString) (h : isDigit c = true) :
    splitSign (c :: cs) = (false, c :: cs) := by
  have h1 : c ≠ '-' := by intro e; rw [e] at h; revert h; decide
  have h2 : c ≠ '+' := by intro e; rw [e] at h; revert h; decide
  unfold splitSign
  split
  · rename_i heq; injection heq with e _; exact absurd e h1
  · rename_i heq; injection heq with e _; exact absurd e h2
  · rfl

theorem toInt_digits (ds : QString) (hne : ds ≠ []) (hd : ∀ c ∈ ds, isDigit c = true)
    (hr : decimalValue ds ≤ 2147483647) : toInt ds = (decimalValue ds : Int) := by
  obtain ⟨c, cs, rfl⟩ := List.exists_cons_of_ne_nil hne
  unfold toInt
  rw [trimmed_of_no_space _ (fun x hx => isSpace_of_isDigit x (hd x hx)),
    splitSign_of_isDigit c cs (hd c (by simp))]
  have hall : (c :: cs).all isDigit = true := List.all_eq_true.mpr hd
  simp only [List.isEmpty_cons, hall, Bool.not_true, Bool.or_self, Bool.false_eq_true, if_false]
  have h1 : INT_MIN ≤ (decimalValue (c :: cs) : Int) ∧ (decimalValue (c :: cs) : Int) ≤ INT_MAX := by
    unfold INT_MIN INT_MAX; omega
  rw [if_pos h1]

theorem toInt_minus_digits (ds : QString) (hne : ds ≠ []) (hd : ∀ c ∈ ds, isDigit c = true)
    (hr : decimalValue ds ≤ 2147483648) : toInt ('-' :: ds) = -(decimalValue ds : Int) := by
  unfold toInt
  have hsp : ∀ x ∈ '-' :: ds, isSpace x = false := by
    intro x hx
    rcases List.mem_cons.mp hx with rfl | hx
    · decide
    · exact isSpace_of_isDigit x (hd x hx)
  rw [trimmed_of_no_space _ hsp]
  have hall : ds.all isDigit = true := List.all_eq_true.mpr hd
  have hem : ds.isEmpty = false := by cases ds <;> simp_all
  simp only [splitSign, hall, hem, Bool.not_true, Bool.or_self, Bool.false_eq_true, if_false,
    if_true]
  have h1 : INT_MIN ≤ -(decimalValue ds : Int) ∧ -(decimalValue ds : Int) ≤ INT_MAX := by
    unfold INT_MIN INT_MAX; omega
  rw [if_pos h1]

theorem wrap32_of_range (x : Int) (h1 : -2147483648 ≤ x) (h2 : x ≤ 2147483647) :
    wrap32 x = x := by
  unfold wrap32; omega

theorem qRoundToDouble_digits (ds : QString) (hne : ds ≠ []) (hd : ∀ c ∈ ds, isDigit c = true)
    (hr : decimalValue ds ≤ 2147483647) : qRoundToDouble ds = (decimalValue ds : Int) := by
  obtain ⟨c, cs, rfl⟩ := List.exists_cons_of_ne_nil hne
  unfold qRoundToDouble
  rw [trimmed_of_no_space _ (fun x hx => isSpace_of_isDigit x (hd x hx)),
    splitSign_of_isDigit c cs (hd c (by simp))]
  have ht : (c :: cs).takeWhile isDigit = c :: cs := List.takeWhile_eq_self_iff.mpr hd
  have hdw : (c :: cs).dropWhile isDigit = [] := List.dropWhile_eq_nil_iff.mpr hd
  simp only [ht, hdw, parseExponent, roundScaled]
  simp only [List.isEmpty_cons, Bool.false_and, Bool.false_eq_true, if_false, List.append_nil,
    List.length_nil, Nat.cast_zero, sub_zero, le_refl, if_true, Int.toNat_zero, pow_zero, mul_one]
  exact wrap32_of_range _ (by omega) (by omega)

theorem contains_append_marker (sep pre rest : QString) :
    contains sep (pre ++ sep ++ rest) = true := by
  induction pre with
  | nil =>
    have hp : sep.isPrefixOf (sep ++ rest) = true := by
      rw [List.isPrefixOf_iff_prefix]; exact List.prefix_append _ _
    simp only [List.nil_append]
    generalize sep ++ rest = l at hp
    cases l with
    | nil => simpa [contains] using hp
    | cons c cs => simp [contains, hp]
  | cons c cs ih =>
    simp only [List.cons_append, contains, Bool.or_eq_true]
    exact Or.inr (by simpa using ih)

theorem isSpace_ne_of_not_isSpace (d w : Char) (hd : isSpace d = false) (hw : isSpace w = true) :
    d ≠ w := by
  intro e; rw [e, hw] at hd; exact Bool.noConfusion hd

theorem first_token_of_field (tok tail : QString) (hne : tok ≠ [])
    (hns : ∀ c ∈ tok, isSpace c = false) (htail : ∀ c ∈ tail.head?, isSpace c = true) :
    sectionBy [' '] 0 0 (simplified (tok ++ tail)) = tok := by
  obtain ⟨c0, tok1, rfl⟩ := List.exists_cons_of_ne_nil hne
  have hsp : ' ' ∉ c0 :: tok1 := fun hm => by
    have := hns ' ' hm
    revert this; decide
  have h1 : simplified (c0 :: tok1 ++ tail) = c0 :: tok1 ++ simplifiedFrom true false tail := by
    unfold simplified
    rw [List.cons_append, simplifiedFrom_cons_of_not_isSpace _ _ _ _ (hns c0 (by simp)),
      simplifiedFrom_word tok1 tail (fun x hx => hns x (by simp [hx]))]
    simp
  rw [h1, sectionBy_zero_zero]
  cases tail with
  | nil =>
    simp only [simplifiedFrom, List.append_nil]
    rw [split_single_of_not_mem _ _ hsp]; rfl
  | cons w x =>
    have hw : isSpace w = true := htail w (by simp)
    rw [simplifiedFrom, if_pos hw]
    rcases simplifiedFrom_gap_shape x with h | ⟨y, h⟩
    · rw [h, List.append_nil, split_single_of_not_mem _ _ hsp]; rfl
    · rw [h, split_single_append _ _ _ hsp]; rfl

theorem time_field (pre tok rest : QString) (hne : tok ≠ [])
    (hfirst : ∀ k, k < pre.length →
      timeMarker.isPrefixOf ((pre ++ timeMarker ++ (tok ++ rest)).drop k) = false)
    (hns : ∀ c ∈ tok, isSpace c = false) (ht : 't' ∉ tok)
    (hrest : ∀ c ∈ rest.head?, isSpace c = true) :
    sectionBy [' '] 0 0 (simplified (sectionBy timeMarker 1 1
      (pre ++ timeMarker ++ (tok ++ rest)))) = tok := by
  rw [sectionBy_one_one, split_at_first timeMarker pre (tok ++ rest) (by simp [timeMarker]) hfirst]
  have h1 : (pre :: split timeMarker (tok ++ rest)).getD 1 [] =
      (split timeMarker (tok ++ rest)).headD [] := by
    cases split timeMarker (tok ++ rest) <;> rfl
  rw [h1]
  have h2 := split_headD_append 't' ['i', 'm', 'e', '='] tok rest ht
  change (split timeMarker (tok ++ rest)).headD [] = tok ++ (split timeMarker rest).headD [] at h2
  rw [h2]
  apply first_token_of_field tok _ hne hns
  cases rest with
  | nil => intro c hc; simp [split, splitFrom] at hc
  | cons w r =>
    have hw : isSpace w = true := hrest w (by simp)
    have hne2 : 't' ≠ w := isSpace_ne_of_not_isSpace 't' w (by decide) hw
    have h3 := split_headD_cons 't' ['i', 'm', 'e', '='] w r hne2
    change (split timeMarker (w :: r)).headD [] = w :: (split timeMarker r).headD [] at h3
    rw [h3]
    intro c hc
    simp only [List.head?_cons, Option.mem_def, Option.some.injEq] at hc
    rw [← hc]; exact hw

theorem split_hms (hh mm ss : QString) (hhh : ∀ c ∈ hh, isDigit c = true)
    (hmm : ∀ c ∈ mm, isDigit c = true) (hss : ∀ c ∈ ss, isDigit c = true) :
    split [':'] (hh ++ ':' :: (mm ++ ':' :: ss)) = [hh, mm, ss] := by
  have hc : ∀ l : QString, (∀ c ∈ l, isDigit c = true) → ':' ∉ l := fun l hl hm => by
    have := hl ':' hm
    revert this; decide
  rw [split_single_append _ _ _ (hc hh hhh), split_single_append _ _ _ (hc mm hmm),
    split_single_of_not_mem _ _ (hc ss hss)]

theorem publishProgress_progress (val : Int) (t : MaskTask) :
    (publishProgress val t).1.m_progress = val := by
  unfold publishProgress
  split
  · rfl
  · rename_i h; simpa using h

theorem processLogInfo_unset (buffer : QString) (t : MaskTask) (hmode : t.m_isFfmpegJob = true)
    (hdur : t.m_jobDuration = 0) :
    MaskTask.processLogInfo buffer t =
      .ok ({ t with m_logDetails := t.m_logDetails ++ buffer
                    m_jobDuration := parsedDuration buffer }, []) := by
  obtain ⟨a1, a2, a3, a4, a5, a6, a7, a8, a9, a10, a11, a12⟩ := t
  simp only at hmode hdur
  subst hmode hdur
  unfold MaskTask.processLogInfo parsedDuration
  simp only [if_true]
  split
  · split
    · split
      · rfl
      · rfl
    · rfl
  · rfl

theorem processLogInfo_elapsed (t : MaskTask) (pre hh mm ss rest : QString)
    (hmode : t.m_isFfmpegJob = true) (hT : 0 < t.m_jobDuration)
    (hfirst : ∀ k, k < pre.length → timeMarker.isPrefixOf
      ((pre ++ timeMarker ++ ((hh ++ ':' :: (mm ++ ':' :: ss)) ++ rest)).drop k) = false)
    (hhh : hh ≠ [] ∧ ∀ c ∈ hh, isDigit c = true)
    (hmm : mm ≠ [] ∧ ∀ c ∈ mm, isDigit c = true)
    (hss : ss ≠ [] ∧ ∀ c ∈ ss, isDigit c = true)
    (hrest : ∀ c ∈ rest.head?, isSpace c = true)
    (hrange : 100 * (3600 * decimalValue hh + 60 * decimalValue mm + decimalValue ss)
      ≤ 2147483647) :
    ∃ r, MaskTask.processLogInfo
        (pre ++ timeMarker ++ ((hh ++ ':' :: (mm ++ ':' :: ss)) ++ rest)) t = .ok r ∧
      r.1.m_progress =
        ((100 * (3600 * decimalValue hh + 60 * decimalValue mm + decimalValue ss) : Nat) : Int)
          / t.m_jobDuration := by
  have hdig : ∀ c ∈ hh ++ ':' :: (mm ++ ':' :: ss), isSpace c = false ∧ c ≠ 't' := by
    intro c hc
    simp only [List.mem_append, List.mem_cons] at hc
    rcases hc with h | rfl | h | rfl | h
    · exact ⟨isSpace_of_isDigit c (hhh.2 c h), fun e => by
        have := hhh.2 c h; rw [e] at this; revert this; decide⟩
    · exact ⟨by decide, by decide⟩
    · exact ⟨isSpace_of_isDigit c (hmm.2 c h), fun e => by
        have := hmm.2 c h; rw [e] at this; revert this; decide⟩
    · exact ⟨by decide, by decide⟩
    · exact ⟨isSpace_of_isDigit c (hss.2 c h), fun e => by
        have := hss.2 c h; rw [e] at this; revert this; decide⟩
  have htime := time_field pre (hh ++ ':' :: (mm ++ ':' :: ss)) rest
    (by
      obtain ⟨c, cs, hcs⟩ := List.exists_cons_of_ne_nil hhh.1
      rw [hcs]; simp)
    hfirst (fun c hc => (hdig c hc).1) (fun hm => (hdig 't' hm).2 rfl) hrest
  have hcont := contains_append_marker timeMarker pre ((hh ++ ':' :: (mm ++ ':' :: ss)) ++ rest)
  have hsplit := split_hms hh mm ss hhh.2 hmm.2 hss.2
  have hne : (hh ++ ':' :: (mm ++ ':' :: ss)).isEmpty = false := by
    obtain ⟨c, cs, hcs⟩ := List.exists_cons_of_ne_nil hhh.1
    rw [hcs]; rfl
  have hvh := toInt_digits hh hhh.1 hhh.2 (by omega)
  have hvm := toInt_digits mm hmm.1 hmm.2 (by omega)
  have hvs := qRoundToDouble_digits ss hss.1 hss.2 (by omega)
  have hsec : hmsSeconds hh mm (qRoundToDouble ss) =
      ((3600 * decimalValue hh + 60 * decimalValue mm + decimalValue ss : Nat) : Int) := by
    unfold hmsSeconds
    rw [hvh, hvm, hvs]
    rw [wrap32_of_range (↑(decimalValue hh) * 3600) (by omega) (by omega),
      wrap32_of_range (↑(decimalValue mm) * 60) (by omega) (by omega),
      wrap32_of_range (↑(decimalValue hh) * 3600 + ↑(decimalValue mm) * 60) (by omega)
        (by omega),
      wrap32_of_range _ (by omega) (by omega)]
    push_cast; ring
  have hTne : t.m_jobDuration ≠ 0 := by omega
  set E : Nat := 3600 * decimalValue hh + 60 * decimalValue mm + decimalValue ss with hE
  have hq0 : (0 : Int) ≤ ((100 * E : Nat) : Int) / t.m_jobDuration :=
    Int.ediv_nonneg (by positivity) (le_of_lt hT)
  have hq1 : ((100 * E : Nat) : Int) / t.m_jobDuration ≤ ((100 * E : Nat) : Int) :=
    Int.ediv_le_self _ (by positivity)
  have hdiv : intDiv (wrap32 (100 * ((E : Nat) : Int))) t.m_jobDuration =
      .ok (((100 * E : Nat) : Int) / t.m_jobDuration) := by
    unfold intDiv
    rw [if_neg hTne, wrap32_of_range (100 * (E : Int)) (by omega) (by omega)]
    have h100 : (100 * (E : Int)) = ((100 * E : Nat) : Int) := by push_cast; ring
    rw [h100, Int.tdiv_eq_ediv (by positivity) (le_of_lt hT),
      wrap32_of_range _ (by omega) (by omega)]
  refine ⟨publishProgress (((100 * E : Nat) : Int) / t.m_jobDuration)
    { t with m_logDetails := t.m_logDetails ++
      (pre ++ timeMarker ++ ((hh ++ ':' :: (mm ++ ':' :: ss)) ++ rest)) }, ?_,
    publishProgress_progress _ _⟩
  unfold MaskTask.processLogInfo
  simp only [hmode, if_true, hTne, if_false, hcont, htime, hne, Bool.not_false, hsplit,
    List.length_cons, List.length_nil, List.getD_cons_zero, List.getD_cons_succ, hsec]
  simp only [reportElapsed, hdiv]
  simp

/-- C1 (as amended): in duration mode with a job duration `T > 0`, a buffer whose first `time=`
marker is followed by `HH:MM:SS` (non-empty digit strings) and then whitespace or the end of the
buffer leaves the progress at `floor(100 * (3600*HH + 60*MM + SS) / T)`, provided
`100 * (3600*HH + 60*MM + SS)` fits a 32-bit `int`.  In particular, from an unset duration the
buffer `Duration: 00:01:00` followed by the buffer `time=00:00:30` leaves the progress at 50. -/
theorem processLogInfo_duration_progress (t : MaskTask) (pre hh mm ss rest : QString)
    (hmode : t.m_isFfmpegJob = true) (hT : 0 < t.m_jobDuration)
    (hfirst : ∀ k, k < pre.length → timeMarker.isPrefixOf
      ((pre ++ timeMarker ++ ((hh ++ ':' :: (mm ++ ':' :: ss)) ++ rest)).drop k) = false)
    (hhh : hh ≠ [] ∧ ∀ c ∈ hh, isDigit c = true)
    (hmm : mm ≠ [] ∧ ∀ c ∈ mm, isDigit c = true)
    (hss : ss ≠ [] ∧ ∀ c ∈ ss, isDigit c = true)
    (hrest : ∀ c ∈ rest.head?, isSpace c = true)
    (hrange : 100 * (3600 * decimalValue hh + 60 * decimalValue mm + decimalValue ss)
      ≤ 2147483647) :
    (∃ r, MaskTask.processLogInfo
        (pre ++ timeMarker ++ ((hh ++ ':' :: (mm ++ ':' :: ss)) ++ rest)) t = .ok r ∧
      r.1.m_progress =
        ((100 * (3600 * decimalValue hh + 60 * decimalValue mm + decimalValue ss) : Nat) : Int)
          / t.m_jobDuration) ∧
    (∀ s : MaskTask, s.m_isFfmpegJob = true → s.m_jobDuration = 0 →
      ∃ r1 r2, MaskTask.processLogInfo "Duration: 00:01:00".toList s = .ok r1 ∧
        MaskTask.processLogInfo "time=00:00:30".toList r1.1 = .ok r2 ∧
        r2.1.m_progress = 50) := by
  refine ⟨processLogInfo_elapsed t pre hh mm ss rest hmode hT hfirst hhh hmm hss hrest hrange,
    ?_⟩
  intro s hsm hsd
  have h1 := processLogInfo_unset "Duration: 00:01:00".toList s hsm hsd
  have hpd : parsedDuration "Duration: 00:01:00".toList = 60 := by decide
  rw [hpd] at h1
  obtain ⟨r2, h2, h3⟩ := processLogInfo_elapsed
    { s with m_logDetails := s.m_logDetails ++ "Duration: 00:01:00".toList, m_jobDuration := 60 }
    [] ['0', '0'] ['0', '0'] ['3', '0'] [] hsm (by show (0 : Int) < 60; decide)
    (by intro k hk; simp at hk)
    (by decide) (by decide) (by decide) (by intro c hc; simp at hc) (by decide)
  refine ⟨_, r2, h1, h2, ?_⟩
  rw [h3]
  show ((100 * (3600 * decimalValue ['0', '0'] + 60 * decimalValue ['0', '0']
    + decimalValue ['3', '0']) : Nat) : Int) / 60 = 50
  decide

/-- C1, witness: the general statement applied to the buffer `time=00:00:30` at a job duration
of 60 seconds. -/
theorem processLogInfo_duration_progress_witness :
    ∃ r, MaskTask.processLogInfo "time=00:00:30".toList sampleDurationTask = .ok r ∧
      r.1.m_progress = 50 := by
  obtain ⟨r, h1, h2⟩ := (processLogInfo_duration_progress sampleDurationTask
    [] ['0', '0'] ['0', '0'] ['3', '0'] [] rfl (by decide) (by intro k hk; simp at hk)
    (by decide) (by decide) (by decide) (by intro c hc; simp at hc) (by decide)).1
  exact ⟨r, h1, by rw [h2]; decide⟩

/-- C1, counterexample: with a job duration of 60 the buffer `time=2147483648:00:00` has
non-negative integer fields after its only `time=` marker, yet the hour field does not fit an
`int`, `toInt` yields 0 and the progress becomes 0 rather than
`floor(100 * 3600 * 2147483648 / 60)`. -/
theorem processLogInfo_duration_progress_counterexample :
    sampleDurationTask.m_isFfmpegJob = true ∧ 0 < sampleDurationTask.m_jobDuration ∧
    (∀ c ∈ "2147483648".toList, isDigit c = true) ∧
    (MaskTask.processLogInfo "time=2147483648:00:00".toList sampleDurationTask).toOption.map
      (fun r => r.1.m_progress) = some 0 ∧
    ((100 * (3600 * decimalValue "2147483648".toList + 60 * decimalValue "00".toList
      + decimalValue "00".toList) : Nat) : Int) / sampleDurationTask.m_jobDuration ≠ 0 := by
  decide

theorem split_single_last (d : Char) (xs tok : QString) (h : d ∉ tok) :
    ∃ f fs, split [d] (xs ++ d :: tok) = (f :: fs) ++ [tok] := by
  induction xs with
  | nil =>
    refine ⟨[], [], ?_⟩
    have := split_single_append d [] tok (by simp)
    rw [List.nil_append] at this ⊢
    rw [this, split_single_of_not_mem d tok h]; rfl
  | cons c cs ih =>
    obtain ⟨f, fs, hf⟩ := ih
    by_cases hc : d = c
    · subst hc
      refine ⟨[], f :: fs, ?_⟩
      have := split_single_append d [] (cs ++ d :: tok) (by simp)
      rw [List.nil_append] at this
      rw [List.cons_append, this, hf]; rfl
    · obtain ⟨g, gs, h1, h2⟩ := splitFrom_cons_of_not_isPrefixOf [d] c (cs ++ d :: tok)
        (by simp [List.isPrefixOf, hc])
      refine ⟨c :: f, fs, ?_⟩
      unfold split at hf ⊢
      rw [List.cons_append, h2]
      rw [hf] at h1
      simp only [List.cons_append, List.cons.injEq] at h1
      rw [← h1.1, ← h1.2]; rfl

theorem simplifiedFrom_last_word (tok : QString) (hne : tok ≠ [])
    (hns : ∀ c ∈ tok, isSpace c = false) (e g : Bool) (lead : QString)
    (hlead : ∀ c ∈ lead.getLast?, isSpace c = true) :
    ∃ A, simplifiedFrom e g (lead ++ tok) = A ++ tok ∧
      (A = [] ∨ ∃ B, A = B ++ [' ']) ∧ ((e = true ∧ (g = true ∨ lead ≠ [])) → A ≠ []) := by
  obtain ⟨c0, tok1, rfl⟩ := List.exists_cons_of_ne_nil hne
  have hword : ∀ e g, simplifiedFrom e g (c0 :: tok1) =
      (if e && g then [' '] else []) ++ c0 :: tok1 := by
    intro e g
    rw [simplifiedFrom_cons_of_not_isSpace _ _ _ _ (hns c0 (by simp))]
    have := simplifiedFrom_word tok1 [] (fun x hx => hns x (by simp [hx]))
    rw [List.append_nil] at this
    rw [this]; simp [simplifiedFrom]
  induction lead generalizing e g with
  | nil =>
    rw [List.nil_append, hword]
    refine ⟨if e && g then [' '] else [], rfl, ?_, ?_⟩
    · cases e <;> cases g <;> simp
    · rintro ⟨rfl, h | h⟩
      · subst h; simp
      · exact absurd rfl h
  | cons c cs ih =>
    have hcs : ∀ x ∈ cs.getLast?, isSpace x = true := by
      intro x hx
      apply hlead x
      cases cs with
      | nil => simp at hx
      | cons y ys => simpa [List.getLast?_cons_cons] using hx
    cases hc : isSpace c with
    | true =>
      obtain ⟨A, hA, hshape, hnon⟩ := ih e true hcs
      refine ⟨A, ?_, hshape, fun h => hnon ⟨h.1, Or.inl rfl⟩⟩
      rw [List.cons_append, simplifiedFrom, if_pos hc]; exact hA
    | false =>
      have hcsne : cs ≠ [] := by
        rintro rfl
        have := hlead c (by simp)
        rw [hc] at this; exact Bool.noConfusion this
      obtain ⟨A, hA, hshape, hnon⟩ := ih true false hcs
      have hAne : A ≠ [] := hnon ⟨rfl, Or.inr hcsne⟩
      refine ⟨(if e && g then [' '] else []) ++ c :: A, ?_, Or.inr ?_, by simp⟩
      · rw [List.cons_append, simplifiedFrom_cons_of_not_isSpace _ _ _ _ hc, hA]; simp
      · rcases hshape with h | ⟨B, hB⟩
        · exact absurd h hAne
        · exact ⟨(if e && g then [' '] else []) ++ c :: B, by rw [hB]; simp⟩

theorem last_token_of_field (lead tok : QString) (hne : tok ≠ [])
    (hns : ∀ c ∈ tok, isSpace c = false) (hlead : ∀ c ∈ lead.getLast?, isSpace c = true) :
    sectionBy [' '] (-1) (-1) (simplified (lead ++ tok)) = tok := by
  have hsp : ' ' ∉ tok := fun hm => by
    have := hns ' ' hm
    revert this; decide
  obtain ⟨A, hA, hshape, -⟩ := simplifiedFrom_last_word tok hne hns false false lead hlead
  unfold simplified
  rw [hA, sectionBy_last]
  rcases hshape with rfl | ⟨B, rfl⟩
  · rw [List.nil_append, split_single_of_not_mem _ _ hsp]; rfl
  · obtain ⟨f, fs, h⟩ := split_single_last ' ' B tok hsp
    rw [List.append_assoc, List.singleton_append, h]
    simp [List.getLastD]

theorem processLogInfo_percent (t : MaskTask) (lead ds rest : QString) (neg : Bool)
    (hmode : t.m_isFfmpegJob = false)
    (hfirst : ∀ k, k < (lead ++ signedToken neg ds).length → percentMarker.isPrefixOf
      (((lead ++ signedToken neg ds) ++ percentMarker ++ rest).drop k) = false)
    (hlead : ∀ c ∈ lead.getLast?, isSpace c = true)
    (hds : ds ≠ [] ∧ ∀ c ∈ ds, isDigit c = true)
    (hrange : -2147483648 ≤ signedValue neg ds ∧ signedValue neg ds ≤ 2147483647) :
    ∃ r, MaskTask.processLogInfo ((lead ++ signedToken neg ds) ++ percentMarker ++ rest) t
        = .ok r ∧ r.1.m_progress = signedValue neg ds := by
  have hcont := contains_append_marker percentMarker (lead ++ signedToken neg ds) rest
  have hsplit := split_at_first percentMarker (lead ++ signedToken neg ds) rest
    (by simp [percentMarker]) hfirst
  have hfield : sectionBy percentMarker 0 0
      ((lead ++ signedToken neg ds) ++ percentMarker ++ rest) = lead ++ signedToken neg ds := by
    rw [sectionBy_zero_zero, hsplit]; rfl
  have htokne : signedToken neg ds ≠ [] := by
    unfold signedToken; cases neg
    · simpa using hds.1
    · simp
  have htokns : ∀ c ∈ signedToken neg ds, isSpace c = false := by
    intro c hc
    unfold signedToken at hc
    cases neg
    · exact isSpace_of_isDigit c (hds.2 c (by simpa using hc))
    · simp only [if_true, List.mem_cons] at hc
      rcases hc with rfl | hc
      · decide
      · exact isSpace_of_isDigit c (hds.2 c hc)
  have hlast := last_token_of_field lead (signedToken neg ds) htokne htokns hlead
  have hval : toInt (signedToken neg ds) = signedValue neg ds := by
    unfold signedToken signedValue at *
    cases neg
    · simp only [Bool.false_eq_true, if_false] at hrange ⊢
      exact toInt_digits ds hds.1 hds.2 (by omega)
    · simp only [if_true] at hrange ⊢
      exact toInt_minus_digits ds hds.1 hds.2 (by omega)
  refine ⟨publishProgress (signedValue neg ds)
    { t with m_logDetails := t.m_logDetails ++
      ((lead ++ signedToken neg ds) ++ percentMarker ++ rest) }, ?_,
    publishProgress_progress _ _⟩
  unfold MaskTask.processLogInfo
  simp only [hmode, Bool.false_eq_true, if_false, hcont, if_true, hfield, hlast, hval]

/-- C2 (as amended): in percent-marker mode, for every buffer that contains the marker `%|` and
whose text before the first marker ends with a whitespace-delimited decimal integer `n` that
fits a 32-bit `int`, the progress after the call is `n`.  In particular the buffer
`"  45%| rest of text"` leaves the progress at 45. -/
theorem processLogInfo_percent_progress (t : MaskTask) (lead ds rest : QString) (neg : Bool)
    (hmode : t.m_isFfmpegJob = false)
    (hfirst : ∀ k, k < (lead ++ signedToken neg ds).length → percentMarker.isPrefixOf
      (((lead ++ signedToken neg ds) ++ percentMarker ++ rest).drop k) = false)
    (hlead : ∀ c ∈ lead.getLast?, isSpace c = true)
    (hds : ds ≠ [] ∧ ∀ c ∈ ds, isDigit c = true)
    (hrange : -2147483648 ≤ signedValue neg ds ∧ signedValue neg ds ≤ 2147483647) :
    (∃ r, MaskTask.processLogInfo ((lead ++ signedToken neg ds) ++ percentMarker ++ rest) t
        = .ok r ∧ r.1.m_progress = signedValue neg ds) ∧
    (∀ s : MaskTask, s.m_isFfmpegJob = false →
      ∃ r, MaskTask.processLogInfo "  45%| rest of text".toList s = .ok r ∧
        r.1.m_progress = 45) := by
  refine ⟨processLogInfo_percent t lead ds rest neg hmode hfirst hlead hds hrange, ?_⟩
  intro s hs
  obtain ⟨r, h1, h2⟩ := processLogInfo_percent s [' ', ' '] ['4', '5'] " rest of text".toList
    false hs (by decide) (by decide) (by decide) (by decide)
  exact ⟨r, h1, by rw [h2]; decide⟩

/-- C2, witness: the general statement applied to the buffer `"done -3%|"`, whose integer is
negative. -/
theorem processLogInfo_percent_progress_witness :
    ∃ r, MaskTask.processLogInfo "done -3%|".toList samplePercentTask = .ok r ∧
      r.1.m_progress = -3 := by
  obtain ⟨r, h1, h2⟩ := (processLogInfo_percent_progress samplePercentTask
    "done ".toList ['3'] [] true rfl (by decide) (by decide) (by decide) (by decide)).1
  exact ⟨r, h1, by rw [h2]; decide⟩

/-- C2, counterexample: the text before the marker of the buffer `99999999999%|` is a decimal
integer, yet it does not fit an `int`, `toInt` yields 0 and the progress becomes 0. -/
theorem processLogInfo_percent_progress_counterexample :
    samplePercentTask.m_isFfmpegJob = false ∧
    (∀ c ∈ "99999999999".toList, isDigit c = true) ∧
    (MaskTask.processLogInfo "99999999999%|".toList samplePercentTask).toOption.map
      (fun r => r.1.m_progress) = some 0 ∧
    (decimalValue "99999999999".toList : Int) ≠ 0 := by
  decide

theorem reportElapsed_of_ne_zero (progress : Int) (t : MaskTask) (h : t.m_jobDuration ≠ 0) :
    reportElapsed progress t =
      .ok (publishProgress (wrap32 (Int.tdiv (wrap32 (100 * progress)) t.m_jobDuration)) t) := by
  unfold reportElapsed intDiv
  rw [if_neg h]

theorem processLogInfo_eq (buffer : QString) (t : MaskTask) :
    MaskTask.processLogInfo buffer t = .ok
      (match computedPercentage buffer t with
       | some v => publishProgress v (afterLog buffer t)
       | none => (afterLog buffer t, [])) := by
  cases hmode : t.m_isFfmpegJob with
  | true =>
    by_cases hdur : t.m_jobDuration = 0
    · rw [processLogInfo_unset buffer t hmode hdur]
      simp [computedPercentage, afterLog, hmode, hdur]
    · obtain ⟨a1, a2, a3, a4, a5, a6, a7, a8, a9, a10, a11, a12⟩ := t
      simp only at hmode hdur
      subst hmode
      have hafter : afterLog buffer ⟨a1, a2, a3, a4, a5, a6, a7, a8, a9, a10, true, a12⟩ =
          ⟨a1, a2, a3, a4, a5, a6, a7, a8, a9, a10 ++ buffer, true, a12⟩ := by
        simp [afterLog, hdur]
      have hd2 : (⟨a1, a2, a3, a4, a5, a6, a7, a8, a9, a10 ++ buffer, true, a12⟩ :
          MaskTask).m_jobDuration ≠ 0 := hdur
      unfold MaskTask.processLogInfo computedPercentage
      simp only [if_true, hdur, if_false, hafter]
      split
      · split
        · split
          · split
            · rfl
            · rw [reportElapsed_of_ne_zero _ _ hd2]
          · rw [reportElapsed_of_ne_zero _ _ hd2]
        · rw [reportElapsed_of_ne_zero _ _ hd2]
      · rfl
  | false =>
    obtain ⟨a1, a2, a3, a4, a5, a6, a7, a8, a9, a10, a11, a12⟩ := t
    simp only at hmode
    subst hmode
    have hafter : afterLog buffer ⟨a1, a2, a3, a4, a5, a6, a7, a8, a9, a10, false, a12⟩ =
        ⟨a1, a2, a3, a4, a5, a6, a7, a8, a9, a10 ++ buffer, false, a12⟩ := by
      simp [afterLog]
    unfold MaskTask.processLogInfo computedPercentage
    simp only [Bool.false_eq_true, if_false, hafter]
    split
    · rfl
    · rfl

theorem computedPercentage_congr (buffer : QString) (t u : MaskTask)
    (h1 : u.m_isFfmpegJob = t.m_isFfmpegJob) (h2 : u.m_jobDuration = t.m_jobDuration) :
    computedPercentage buffer u = computedPercentage buffer t := by
  unfold computedPercentage
  rw [h1, h2]

theorem publishProgress_events (val : Int) (t : MaskTask) :
    (publishProgress val t).2 = if t.m_progress ≠ val then [Event.updateJobProgress] else [] := by
  unfold publishProgress
  split <;> rfl

theorem publishProgress_fields (val : Int) (t : MaskTask) :
    (publishProgress val t).1.m_isFfmpegJob = t.m_isFfmpegJob ∧
    (publishProgress val t).1.m_jobDuration = t.m_jobDuration ∧
    (publishProgress val t).1.m_isCanceled = t.m_isCanceled ∧
    (publishProgress val t).1.m_errorMessage = t.m_errorMessage ∧
    (publishProgress val t).1.m_properties = t.m_properties ∧
    (publishProgress val t).1.m_in = t.m_in ∧
    (publishProgress val t).1.m_out = t.m_out ∧
    (publishProgress val t).1.m_ownerItemId = t.m_ownerItemId ∧
    (publishProgress val t).1.m_running = t.m_running ∧
    (publishProgress val t).1.m_scriptPath = t.m_scriptPath := by
  unfold publishProgress
  split <;> simp

/-- C3 (as amended): every call of `processLogInfo` returns, emits `updateJobProgress` at most
once, emits it exactly when the stored progress changes, which is exactly when the call computes
a percentage different from the stored one; and feeding the same buffer a second time emits
nothing, provided the first call did not set the job duration. -/
theorem processLogInfo_dedup (t : MaskTask) (buffer : QString) :
    ∃ r1, MaskTask.processLogInfo buffer t = .ok r1 ∧
      (r1.2 = [] ∨ r1.2 = [Event.updateJobProgress]) ∧
      (r1.2 = [Event.updateJobProgress] ↔ r1.1.m_progress ≠ t.m_progress) ∧
      (r1.2 = [Event.updateJobProgress] ↔
        ∃ v, computedPercentage buffer t = some v ∧ v ≠ t.m_progress) ∧
      (r1.1.m_jobDuration = t.m_jobDuration →
        ∃ r2, MaskTask.processLogInfo buffer r1.1 = .ok r2 ∧ r2.2 = [] ∧
          r2.1.m_progress = r1.1.m_progress) := by
  refine ⟨_, processLogInfo_eq buffer t, ?_⟩
  have hprog : (afterLog buffer t).m_progress = t.m_progress := rfl
  have hmode : (afterLog buffer t).m_isFfmpegJob = t.m_isFfmpegJob := rfl
  cases hcp : computedPercentage buffer t with
  | none =>
    refine ⟨Or.inl rfl, ?_, ?_, ?_⟩
    · simp [hprog]
    · simp
    · intro hd
      refine ⟨_, processLogInfo_eq buffer _, ?_⟩
      have := computedPercentage_congr buffer t (afterLog buffer t) hmode hd
      simp only at this ⊢
      rw [this, hcp]
      exact ⟨rfl, rfl⟩
  | some v =>
    simp only
    have hev := publishProgress_events v (afterLog buffer t)
    have hpr := publishProgress_progress v (afterLog buffer t)
    have hfl := publishProgress_fields v (afterLog buffer t)
    rw [hprog] at hev
    refine ⟨?_, ?_, ?_, ?_⟩
    · rw [hev]; split <;> simp
    · rw [hev, hpr]
      constructor
      · intro h hv
        rw [if_neg (by simpa using hv.symm)] at h
        exact absurd h (by simp)
      · intro h
        rw [if_pos (fun e => h e.symm)]
    · rw [hev]
      constructor
      · intro h
        by_cases hv : t.m_progress = v
        · rw [if_neg (by simpa using hv)] at h; exact absurd h (by simp)
        · exact ⟨v, rfl, fun e => hv e.symm⟩
      · rintro ⟨w, hw, hne⟩
        injection hw with hw
        subst hw
        rw [if_pos (fun e => hne e.symm)]
    · intro hd
      refine ⟨_, processLogInfo_eq buffer _, ?_⟩
      have := computedPercentage_congr buffer t (publishProgress v (afterLog buffer t)).1
        (hfl.1.trans hmode) hd
      rw [this, hcp]
      simp only
      rw [publishProgress_events, publishProgress_progress, hpr]
      have hal : (afterLog buffer (publishProgress v (afterLog buffer t)).1).m_progress = v := hpr
      simp [hal]

/-- C3, witness: in percent-marker mode the job duration never changes, so the buffer
`"  45%| rest of text"` fed twice notifies once, the first time only. -/
theorem processLogInfo_dedup_witness :
    ∃ r1 r2, MaskTask.processLogInfo "  45%| rest of text".toList samplePercentTask = .ok r1 ∧
      MaskTask.processLogInfo "  45%| rest of text".toList r1.1 = .ok r2 ∧
      r1.2 = [Event.updateJobProgress] ∧ r2.2 = [] := by
  obtain ⟨r1, h1, -, h2, -, h3⟩ :=
    processLogInfo_dedup samplePercentTask "  45%| rest of text".toList
  have hr1 := processLogInfo_eq "  45%| rest of text".toList samplePercentTask
  rw [h1] at hr1
  injection hr1 with hr1
  have hd : r1.1.m_jobDuration = samplePercentTask.m_jobDuration := by rw [hr1]; decide
  have hp : r1.1.m_progress ≠ samplePercentTask.m_progress := by rw [hr1]; decide
  obtain ⟨r2, h4, h5, -⟩ := h3 hd
  exact ⟨r1, r2, h1, h4, h2.mpr hp, h5⟩

/-- C3, counterexample: in duration mode with the duration unset, the buffer
`Duration: 00:01:00, time=00:00:30` only sets the duration when it is fed the first time, and
fed again it moves the progress from 0 to 50 and emits the notification. -/
theorem processLogInfo_dedup_counterexample :
    (MaskTask.processLogInfo "Duration: 00:01:00, time=00:00:30".toList
      sampleUnsetTask).toOption.map (fun r => (r.1.m_progress, r.1.m_jobDuration, r.2))
        = some (0, 60, []) ∧
    ((MaskTask.processLogInfo "Duration: 00:01:00, time=00:00:30".toList
      sampleUnsetTask).toOption.bind (fun r1 =>
        (MaskTask.processLogInfo "Duration: 00:01:00, time=00:00:30".toList
          r1.1).toOption)).map (fun r => (r.1.m_progress, r.2))
        = some (50, [Event.updateJobProgress]) := by
  decide

/-- C4, the code at the failing inputs: in percent-marker mode at progress 45 the buffer `abc%|`
resets the progress to 0 and emits the notification; in duration mode at progress 50 the
fragment `time=` does the same; whereas the fragment `time=N/A` and a buffer without the marker
leave the progress alone. -/
theorem processLogInfo_unparseable_resets :
    (MaskTask.processLogInfo "abc%|".toList sampleHalfwayTask).toOption.map
      (fun r => (r.1.m_progress, r.2)) = some (0, [Event.updateJobProgress]) ∧
    (MaskTask.processLogInfo "frame=  10 fps=0.0 time=".toList sampleEncodingTask).toOption.map
      (fun r => (r.1.m_progress, r.2)) = some (0, [Event.updateJobProgress]) ∧
    (MaskTask.processLogInfo "frame=  10 time=N/A bitrate=N/A".toList
      sampleEncodingTask).toOption.map (fun r => (r.1.m_progress, r.2)) = some (50, []) ∧
    (MaskTask.processLogInfo "loading model".toList sampleHalfwayTask).toOption.map
      (fun r => (r.1.m_progress, r.2)) = some (45, []) := by
  decide

/-- C5: every call of `processLogInfo` returns without a division by zero, and a call in
duration mode while the job duration is unset leaves the progress unchanged and emits no
notification, whatever the buffer. -/
theorem processLogInfo_division_guard (t : MaskTask) (buffer : QString) :
    ∃ r, MaskTask.processLogInfo buffer t = .ok r ∧
      (t.m_isFfmpegJob = true → t.m_jobDuration = 0 →
        r.1.m_progress = t.m_progress ∧ r.2 = []) := by
  refine ⟨_, processLogInfo_eq buffer t, ?_⟩
  intro hmode hdur
  have hcp : computedPercentage buffer t = none := by
    simp [computedPercentage, hmode, hdur]
  rw [hcp]
  exact ⟨rfl, rfl⟩

/-- C5, witness: the buffer `time=00:00:00` before any duration line changes nothing and emits
nothing. -/
theorem processLogInfo_division_guard_witness :
    ∃ r, MaskTask.processLogInfo "time=00:00:00".toList sampleUnsetTask = .ok r ∧
      r.1.m_progress = 0 ∧ r.2 = [] := by
  obtain ⟨r, h1, h2⟩ := processLogInfo_division_guard sampleUnsetTask "time=00:00:00".toList
  exact ⟨r, h1, h2 rfl rfl⟩

theorem sameSetup_refl (t : MaskTask) : sameSetup t t := ⟨rfl, rfl, rfl, rfl, rfl, rfl, rfl⟩

theorem sameSetup_trans {t u v : MaskTask} (h1 : sameSetup t u) (h2 : sameSetup u v) :
    sameSetup t v := by
  obtain ⟨a1, a2, a3, a4, a5, a6, a7⟩ := h1
  obtain ⟨b1, b2, b3, b4, b5, b6, b7⟩ := h2
  exact ⟨b1.trans a1, b2.trans a2, b3.trans a3, b4.trans a4, b5.trans a5, b6.trans a6,
    b7.trans a7⟩

theorem processLogInfo_setup (buffer : QString) (t : MaskTask) :
    ∃ r, MaskTask.processLogInfo buffer t = .ok r ∧ sameSetup t r.1 ∧
      r.1.m_isCanceled = t.m_isCanceled ∧ (∀ e ∈ r.2, e.isStageEvent = true) := by
  refine ⟨_, processLogInfo_eq buffer t, ?_⟩
  cases computedPercentage buffer t with
  | none => exact ⟨sameSetup_refl _, rfl, by simp⟩
  | some v =>
    have hfl := publishProgress_fields v (afterLog buffer t)
    have hev := publishProgress_events v (afterLog buffer t)
    refine ⟨⟨hfl.2.2.2.2.2.2.2.1, hfl.2.2.2.2.1, hfl.2.2.2.2.2.2.2.2.2, hfl.2.2.2.2.2.1,
      hfl.2.2.2.2.2.2.1, hfl.2.2.2.2.2.2.2.2.1, hfl.2.2.2.1⟩, hfl.2.2.1, ?_⟩
    simp only
    rw [hev]
    intro e he
    split at he
    · simp only [List.mem_singleton] at he; rw [he]; rfl
    · simp at he

theorem waitForFinished_ok (steps : List StageStep) (t : MaskTask) :
    ∃ r, MaskTask.waitForFinished steps t = .ok r ∧ sameSetup t r.1 ∧
      r.1.m_isCanceled = (t.m_isCanceled || hasCancel steps) ∧
      (∀ e ∈ r.2, e.isStageEvent = true) ∧
      (t.m_isCanceled = false → hasCancel steps = true → Event.killProcess ∈ r.2) := by
  induction steps generalizing t with
  | nil => exact ⟨(t, []), rfl, sameSetup_refl t, by simp [hasCancel], by simp, by simp [hasCancel]⟩
  | cons step rest ih =>
    cases step with
    | output buffer =>
      obtain ⟨r, h1, h2, h3, h4⟩ := processLogInfo_setup buffer t
      obtain ⟨r2, k1, k2, k3, k4, k5⟩ := ih r.1
      refine ⟨(r2.1, r.2 ++ r2.2), ?_, sameSetup_trans h2 k2, ?_, ?_, ?_⟩
      · rw [MaskTask.waitForFinished, h1]; simp only; rw [k1]
      · simp only; rw [k3, h3]; simp [hasCancel]
      · intro e he
        rcases List.mem_append.mp he with h | h
        · exact h4 e h
        · exact k4 e h
      · intro hc hs
        have hs2 : hasCancel rest = true := by simpa [hasCancel] using hs
        exact List.mem_append.mpr (Or.inr (k5 (by rw [h3, hc]) hs2))
    | cancel =>
      obtain ⟨r2, k1, k2, k3, k4, k5⟩ := ih t.cancelJob.1
      have hset : sameSetup t t.cancelJob.1 := by
        unfold MaskTask.cancelJob; split
        · exact sameSetup_refl t
        · exact ⟨rfl, rfl, rfl, rfl, rfl, rfl, rfl⟩
      have hflag : t.cancelJob.1.m_isCanceled = true := by
        unfold MaskTask.cancelJob; split
        · assumption
        · rfl
      refine ⟨(r2.1, t.cancelJob.2 ++ r2.2), ?_, sameSetup_trans hset k2, ?_, ?_, ?_⟩
      · rw [MaskTask.waitForFinished, k1]
      · simp only; rw [k3, hflag]; simp [hasCancel]
      · intro e he
        rcases List.mem_append.mp he with h | h
        · unfold MaskTask.cancelJob at h; split at h
          · simp at h
          · simp only [List.mem_singleton] at h; rw [h]; rfl
        · exact k4 e h
      · intro hc _
        apply List.mem_append.mpr; left
        unfold MaskTask.cancelJob
        rw [if_neg (by simp [hc])]; simp

theorem thumbnail_events (w : World) (t : MaskTask) :
    ∀ e ∈ MaskTask.thumbnail w t,
      e.isAddMask = false ∧ e.isTaskDone = false ∧ e.isStartProcess = false := by
  intro e he
  unfold MaskTask.thumbnail at he
  split at he
  · simp only [List.mem_singleton] at he; rw [he]; exact ⟨rfl, rfl, rfl⟩
  · simp at he

theorem publishResult_spec (w : World) (t : MaskTask) :
    (MaskTask.publishResult w t).1.m_isCanceled = (t.m_isCanceled || w.cancelBeforePublish) ∧
    (MaskTask.publishResult w t).1.m_errorMessage = t.m_errorMessage ∧
    (MaskTask.publishResult w t).2.filter Event.isAddMask =
      (if (t.m_isCanceled || w.cancelBeforePublish) = false then
        [Event.addMask t.configuredMask] else []) ∧
    (∀ e ∈ (MaskTask.publishResult w t).2, e.isTaskDone = false ∧ e.isStartProcess = false) := by
  have hth := thumbnail_events w t
  have hfil : (MaskTask.thumbnail w t).filter Event.isAddMask = [] :=
    List.filter_eq_nil_iff.mpr (fun e he => by simp [(hth e he).1])
  unfold MaskTask.publishResult MaskTask.cancelJob MaskTask.configuredMask
  cases hc : t.m_isCanceled <;> cases hb : w.cancelBeforePublish
  · refine ⟨by simp [hc], by simp [hc], by simp [hc, hfil, Event.isAddMask], ?_⟩
    simp only [hc, Bool.false_eq_true, if_false, Bool.not_false, if_true, List.append_nil]
    intro e he
    rcases List.mem_append.mp he with h | h
    · exact (hth e h).2
    · simp only [List.mem_singleton] at h; rw [h]; exact ⟨rfl, rfl⟩
  · refine ⟨by simp [hc], by simp [hc], by simp [hc, hfil, Event.isAddMask], ?_⟩
    simp only [hc, Bool.false_eq_true, if_false, if_true, Bool.not_true]
    intro e he
    rcases List.mem_append.mp he with h | h
    · exact (hth e h).2
    · simp only [List.mem_singleton] at h; rw [h]; exact ⟨rfl, rfl⟩
  · refine ⟨by simp [hc], by simp [hc], by simp [hc, hfil], ?_⟩
    simp only [hc, Bool.false_eq_true, if_false, Bool.not_true, List.append_nil]
    intro e he
    exact (hth e he).2
  · refine ⟨by simp [hc], by simp [hc], by simp [hc, hfil], ?_⟩
    simp only [hc, if_true, Bool.not_true, Bool.false_eq_true, if_false, List.append_nil]
    intro e he
    exact (hth e he).2

theorem generateMask_shape (w : World) (t : MaskTask) :
    (sourceFramesPresent w t = false →
      MaskTask.generateMask w t = .ok ({ t with m_errorMessage := noSourceFramesMessage }, [])) ∧
    (sourceFramesPresent w t = true →
      ∃ r1 r2, MaskTask.waitForFinished w.stage1 t = .ok r1 ∧
        MaskTask.waitForFinished w.stage2 { r1.1 with m_isFfmpegJob := true } = .ok r2 ∧
        MaskTask.generateMask w t = .ok
          (if w.fileExists (value t.m_properties MaskProperty.OUTPUTFILE) = false then
            (r2.1, [Event.startProcess t.m_scriptPath.1 (scriptArgs w t)] ++ r1.2 ++
              [Event.startProcess w.ffmpegpath (ffmpegArgs w t)] ++ r2.2 ++
              [Event.displayBinMessage
                (if r2.1.m_errorMessage.isEmpty then
                  failedToRenderMessage (value t.m_properties MaskProperty.OUTPUTFILE)
                 else r2.1.m_errorMessage)])
          else
            ((MaskTask.publishResult w r2.1).1,
              [Event.startProcess t.m_scriptPath.1 (scriptArgs w t)] ++ r1.2 ++
              [Event.startProcess w.ffmpegpath (ffmpegArgs w t)] ++ r2.2 ++
              (MaskTask.publishResult w r2.1).2))) := by
  constructor
  · intro h
    unfold sourceFramesPresent at h
    unfold MaskTask.generateMask
    have h2 : (!w.dirExists (value t.m_properties MaskProperty.INPUTFOLDER) ||
        w.dirIsEmpty (value t.m_properties MaskProperty.INPUTFOLDER)) = true := by
      revert h
      cases w.dirExists (value t.m_properties MaskProperty.INPUTFOLDER) <;>
        cases w.dirIsEmpty (value t.m_properties MaskProperty.INPUTFOLDER) <;> simp
    simp only [h2, if_true]
  · intro h
    unfold sourceFramesPresent at h
    have h2 : (!w.dirExists (value t.m_properties MaskProperty.INPUTFOLDER) ||
        w.dirIsEmpty (value t.m_properties MaskProperty.INPUTFOLDER)) = false := by
      revert h
      cases w.dirExists (value t.m_properties MaskProperty.INPUTFOLDER) <;>
        cases w.dirIsEmpty (value t.m_properties MaskProperty.INPUTFOLDER) <;> simp
    obtain ⟨r1, h1, -⟩ := waitForFinished_ok w.stage1 t
    obtain ⟨r2, k1, -⟩ := waitForFinished_ok w.stage2 { r1.1 with m_isFfmpegJob := true }
    refine ⟨r1, r2, h1, k1, ?_⟩
    unfold MaskTask.generateMask
    simp only [h2, Bool.false_eq_true, if_false, h1, k1]
    cases w.fileExists (value t.m_properties MaskProperty.OUTPUTFILE) <;> simp

theorem isStageEvent_kinds (e : Event) (h : e.isStageEvent = true) :
    e.isTaskDone = false ∧ e.isAddMask = false ∧ e.isStartProcess = false := by
  cases e <;> simp_all [Event.isStageEvent, Event.isTaskDone, Event.isAddMask,
    Event.isStartProcess]

theorem filter_isAddMask_stage (es : List Event) (h : ∀ e ∈ es, e.isStageEvent = true) :
    es.filter Event.isAddMask = [] :=
  List.filter_eq_nil_iff.mpr (fun e he => by simp [(isStageEvent_kinds e (h e he)).2.1])

theorem generateMask_summary (w : World) (t : MaskTask) :
    ∃ r, MaskTask.generateMask w t = .ok r ∧
      (∀ e ∈ r.2, e.isTaskDone = false) ∧
      r.2.filter Event.isAddMask =
        (if sourceFramesPresent w t = true ∧
            w.fileExists (value t.m_properties MaskProperty.OUTPUTFILE) = true ∧
            r.1.m_isCanceled = false then [Event.addMask t.configuredMask] else []) ∧
      (sourceFramesPresent w t = true →
        w.fileExists (value t.m_properties MaskProperty.OUTPUTFILE) = true →
        r.1.m_isCanceled = (t.m_isCanceled || hasCancel w.stage1 || hasCancel w.stage2 ||
          w.cancelBeforePublish)) := by
  cases hsrc : sourceFramesPresent w t with
  | false =>
    refine ⟨_, (generateMask_shape w t).1 hsrc, by simp, by simp, by simp⟩
  | true =>
    obtain ⟨r1, r2, h1, h2, h3⟩ := (generateMask_shape w t).2 hsrc
    obtain ⟨q1, e1, s1, c1, v1, -⟩ := waitForFinished_ok w.stage1 t
    rw [h1] at e1; injection e1 with e1; subst e1
    obtain ⟨q2, e2, s2, c2, v2, -⟩ :=
      waitForFinished_ok w.stage2 { r1.1 with m_isFfmpegJob := true }
    rw [h2] at e2; injection e2 with e2; subst e2
    have hconf : r2.1.configuredMask = t.configuredMask := by
      unfold MaskTask.configuredMask
      rw [s2.2.1, s2.2.2.2.1, s2.2.2.2.2.1]
      show ({ maskName := value r1.1.m_properties MaskProperty.NAME,
              maskFile := value r1.1.m_properties MaskProperty.OUTPUTFILE,
              inPoint := r1.1.m_in, outPoint := r1.1.m_out } : MaskInfo) = _
      rw [s1.2.1, s1.2.2.2.1, s1.2.2.2.2.1]
    have hflag : r2.1.m_isCanceled = (t.m_isCanceled || hasCancel w.stage1 ||
        hasCancel w.stage2) := by
      rw [c2]
      show (r1.1.m_isCanceled || hasCancel w.stage2) = _
      rw [c1]
    have hp := publishResult_spec w r2.1
    refine ⟨_, h3, ?_, ?_, ?_⟩
    · cases hf : w.fileExists (value t.m_properties MaskProperty.OUTPUTFILE)
      · simp only [if_true]
        intro e he
        simp only [List.append_assoc, List.mem_append, List.mem_singleton] at he
        rcases he with h | h | h | h | h
        · rw [h]; rfl
        · exact (isStageEvent_kinds e (v1 e h)).1
        · rw [h]; rfl
        · exact (isStageEvent_kinds e (v2 e h)).1
        · rw [h]; rfl
      · simp only [Bool.true_eq_false, if_false]
        intro e he
        simp only [List.append_assoc, List.mem_append, List.mem_singleton] at he
        rcases he with h | h | h | h | h
        · rw [h]; rfl
        · exact (isStageEvent_kinds e (v1 e h)).1
        · rw [h]; rfl
        · exact (isStageEvent_kinds e (v2 e h)).1
        · exact (hp.2.2.2 e h).1
    · cases hf : w.fileExists (value t.m_properties MaskProperty.OUTPUTFILE)
      · simp [List.filter_append, filter_isAddMask_stage _ v1, filter_isAddMask_stage _ v2,
          Event.isAddMask]
      · simp only [Bool.true_eq_false, if_false, true_and]
        rw [List.filter_append, List.filter_append, List.filter_append, List.filter_append,
          filter_isAddMask_stage _ v1, filter_isAddMask_stage _ v2, hp.2.2.1, hp.1, hconf]
        simp [Event.isAddMask]
    · intro _ hf
      simp only [hf, Bool.true_eq_false, if_false]
      rw [hp.1, hflag]

/-- C6: when the cancellation flag is already set, or the task manager is blocked, `run` returns
the task unchanged (so neither the running flag, the progress nor the error message changes),
starts no process and publishes no result; its only effect is the finalization hook. -/
theorem run_entry_guard (w : World) (t : MaskTask)
    (h : t.m_isCanceled = true ∨ w.isBlocked = true) :
    ∃ r, MaskTask.run w t = .ok r ∧ r.1 = t ∧
      r.1.m_running = t.m_running ∧ r.1.m_progress = t.m_progress ∧
      r.1.m_errorMessage = t.m_errorMessage ∧
      r.2 = [Event.taskDone t.m_ownerItemId] ∧
      (∀ e ∈ r.2, e.isStartProcess = false ∧ e.isAddMask = false) := by
  have hg : (t.m_isCanceled || w.isBlocked) = true := by
    rcases h with h | h <;> simp [h]
  refine ⟨(t, [Event.taskDone t.m_ownerItemId]), ?_, rfl, rfl, rfl, rfl, rfl, ?_⟩
  · unfold MaskTask.run AbstractTaskDone.finish
    simp only [hg, if_true]
  · intro e he
    simp only [List.mem_singleton] at he
    rw [he]; exact ⟨rfl, rfl⟩

/-- C6, witness: a blocked task manager. -/
theorem run_entry_guard_witness :
    ∃ r, MaskTask.run { sampleWorld with isBlocked := true } sampleTask = .ok r ∧
      r.1 = sampleTask ∧ r.2 = [Event.taskDone 7] := by
  obtain ⟨r, h1, h2, -, -, -, h3, -⟩ :=
    run_entry_guard { sampleWorld with isBlocked := true } sampleTask (Or.inr rfl)
  exact ⟨r, h1, h2, h3⟩

/-- C7: every execution of `run` returns, and its effects are some effects none of which is the
finalization hook, followed by the finalization hook for the owner of the task: the hook fires
exactly once and after every other effect. -/
theorem run_finalization_once (w : World) (t : MaskTask) :
    ∃ r before, MaskTask.run w t = .ok r ∧
      r.2 = before ++ [Event.taskDone t.m_ownerItemId] ∧
      (∀ e ∈ before, e.isTaskDone = false) ∧
      r.2.filter Event.isTaskDone = [Event.taskDone t.m_ownerItemId] := by
  have hcount : ∀ before : List Event, (∀ e ∈ before, e.isTaskDone = false) →
      (before ++ [Event.taskDone t.m_ownerItemId]).filter Event.isTaskDone =
        [Event.taskDone t.m_ownerItemId] := by
    intro before hb
    rw [List.filter_append, List.filter_eq_nil_iff.mpr (fun e he => by simp [hb e he])]
    rfl
  cases hg : (t.m_isCanceled || w.isBlocked) with
  | true =>
    refine ⟨(t, [Event.taskDone t.m_ownerItemId]), [], ?_, rfl, by simp, rfl⟩
    unfold MaskTask.run AbstractTaskDone.finish
    simp only [hg, if_true]
  | false =>
    obtain ⟨g, hgen, hnone, -⟩ := generateMask_summary w { t with m_running := true }
    refine ⟨(g.1, g.2 ++ [Event.taskDone t.m_ownerItemId]), g.2, ?_, rfl, hnone,
      hcount g.2 hnone⟩
    unfold MaskTask.run AbstractTaskDone.finish
    simp only [hg, Bool.false_eq_true, if_false, hgen]

/-- C9: `generateMask` returns, and the result records it queues for the owning clip are: the
one record made of the configured name, the configured output file and the range bounds of the
task, when the input folder exists and is not empty, the output file exists after the
transcoding stage and the cancellation flag is not set at the publication check; and none
otherwise.  The outputs of the two processes are arbitrary, and a task built by the constructor
carries the range bounds it was given. -/
theorem generateMask_publication (w : World) (t : MaskTask) :
    ∃ r, MaskTask.generateMask w t = .ok r ∧
      r.2.filter Event.isAddMask =
        (if sourceFramesPresent w t = true ∧
            w.fileExists (value t.m_properties MaskProperty.OUTPUTFILE) = true ∧
            r.1.m_isCanceled = false then
          [Event.addMask
            { maskName := value t.m_properties MaskProperty.NAME
              maskFile := value t.m_properties MaskProperty.OUTPUTFILE
              inPoint := t.m_in
              outPoint := t.m_out }]
        else []) ∧
      (sourceFramesPresent w t = true →
        w.fileExists (value t.m_properties MaskProperty.OUTPUTFILE) = true →
        r.1.m_isCanceled = (t.m_isCanceled || hasCancel w.stage1 || hasCancel w.stage2 ||
          w.cancelBeforePublish)) ∧
      (∀ owner props script a b, (MaskTask.create owner props script a b).m_in = a ∧
        (MaskTask.create owner props script a b).m_out = b ∧
        (MaskTask.create owner props script a b).m_properties = props) := by
  obtain ⟨r, h1, -, h2, h3⟩ := generateMask_summary w t
  exact ⟨r, h1, h2, h3, fun _ _ _ _ _ => ⟨rfl, rfl, rfl⟩⟩

/-- C9, witness: in the sample world the sample task publishes exactly its configured record. -/
theorem generateMask_publication_witness :
    ∃ r, MaskTask.generateMask sampleWorld sampleTask = .ok r ∧
      r.2.filter Event.isAddMask =
        [Event.addMask
          { maskName := "mask1".toList
            maskFile := "/tmp/mask.mkv".toList
            inPoint := 5
            outPoint := 125 }] := by
  obtain ⟨r, h1, h2, h3, -⟩ := generateMask_publication sampleWorld sampleTask
  have hflag := h3 (by decide) (by decide)
  refine ⟨r, h1, ?_⟩
  rw [h2, if_pos ⟨by decide, by decide, by rw [hflag]; decide⟩]
  decide

/-- C8, the code at the failing input: the task is cancelled while the segmentation script runs;
the process is killed, and the transcoding process is started all the same; no result is
published. -/
theorem generateMask_cancelled_first_stage :
    (MaskTask.generateMask cancelledWorld sampleTask).toOption.map
      (fun r => (r.1.m_isCanceled, r.2)) =
    some (true,
      [Event.startProcess "python".toList (scriptArgs cancelledWorld sampleTask),
        Event.updateJobProgress,
        Event.killProcess,
        Event.startProcess "ffmpeg".toList (ffmpegArgs cancelledWorld sampleTask),
        Event.updateJobProgress,
        Event.saveThumbnail "/tmp/mask.png".toList]) := by
  decide

/-- C10, the code at the failing input: both processes run to the end and the output file does
not exist; after `run` the error message of the task is still empty, and the failure is only
shown as a warning that names the file. -/
theorem run_missing_output :
    (MaskTask.run noOutputWorld sampleTask).toOption.map
      (fun r => (r.1.m_errorMessage, r.2.filter
        (fun e => !e.isStageEvent && !e.isStartProcess))) =
    some ([], [Event.displayBinMessage "Failed to render mask /tmp/mask.mkv".toList,
      Event.taskDone 7]) := by
  decide

theorem processLogInfo_duration_stable (buffer : QString) (t : MaskTask)
    (h : t.m_jobDuration ≠ 0) :
    ∃ r, MaskTask.processLogInfo buffer t = .ok r ∧ r.1.m_jobDuration = t.m_jobDuration := by
  refine ⟨_, processLogInfo_eq buffer t, ?_⟩
  have hafter : (afterLog buffer t).m_jobDuration = t.m_jobDuration := by
    simp [afterLog, h]
  cases computedPercentage buffer t with
  | none => exact hafter
  | some v => exact (publishProgress_fields v (afterLog buffer t)).2.1.trans hafter

/-- C12, the code at the failing input: in duration mode with the duration unset, the line
`Duration: 00:00:30.50, start: 0.000000, bitrate: N/A` leaves the job duration at 0, because the
seconds field `30.50` is converted with `toInt`, which fails on the fraction; likewise
`Duration: 00:01:30.50, ...` gives 60, not 90; whereas `Duration: 00:01:30, ...`, without a
fraction, gives 90. -/
theorem processLogInfo_duration_fraction :
    (MaskTask.processLogInfo "Duration: 00:00:30.50, start: 0.000000, bitrate: N/A".toList
      sampleUnsetTask).toOption.map (fun r => r.1.m_jobDuration) = some 0 ∧
    (MaskTask.processLogInfo "Duration: 00:01:30.50, start: 0.000000, bitrate: N/A".toList
      sampleUnsetTask).toOption.map (fun r => r.1.m_jobDuration) = some 60 ∧
    (MaskTask.processLogInfo "Duration: 00:01:30, start: 0.000000, bitrate: N/A".toList
      sampleUnsetTask).toOption.map (fun r => r.1.m_jobDuration) = some 90 ∧
    Qt.toInt "30.50".toList = 0 ∧ Qt.qRoundToDouble "30.50".toList = 31 := by
  decide

end Kdenlive
